import Mathlib

/-!
# goserverbase: messaging envelope, poll loop, secret cache, Kafka configuration and
# HTTP error middleware

A shallow embedding of the parts of `sabariramc/goserverbase` that the specification
talks about, followed by the theorems about them.

* `utils` / `kafka` (Envelope, producers, consumer poll loop): the Go sources of these
  packages are not part of the source tree at hand (only their tests are), so their
  definitions are modelled from the specification text and are marked as such.
* `aws.SecretManager.GetSecret`, `kafka.Kafka*Config`, `baseapp.SendErrorResponse`,
  `baseapp.HandleExceptionMiddleware`, `baseapp.SetHandlerError`: embedded from the Go
  source, with external collaborators (AWS SDK, `encoding/json`, the `errors` package
  of the repository) taken as parameters.
-/

namespace Goserverbase

/-! ## Wire text: UTF-8 -/

/-- A byte of a wire message. -/
abbrev Byte := UInt8

/-- Text is a sequence of Unicode scalar values. -/
abbrev Str := List Char

/-- UTF-8 encoding of one scalar value (RFC 3629). -/
def utf8EncodeChar (c : Char) : List Byte :=
  let n := c.toNat
  if n < 0x80 then [UInt8.ofNat n]
  else if n < 0x800 then [UInt8.ofNat (0xC0 + n / 64), UInt8.ofNat (0x80 + n % 64)]
  else if n < 0x10000 then
    [UInt8.ofNat (0xE0 + n / 4096), UInt8.ofNat (0x80 + n / 64 % 64), UInt8.ofNat (0x80 + n % 64)]
  else
    [UInt8.ofNat (0xF0 + n / 262144), UInt8.ofNat (0x80 + n / 4096 % 64),
     UInt8.ofNat (0x80 + n / 64 % 64), UInt8.ofNat (0x80 + n % 64)]

/-- UTF-8 encoding of a text. -/
def utf8Encode : Str → List Byte
  | [] => []
  | c :: cs => utf8EncodeChar c ++ utf8Encode cs

/-- Continuation byte `10xxxxxx`. -/
def isCont (b : Byte) : Bool := 0x80 ≤ b.toNat && b.toNat < 0xC0

/-- The scalar value `n` as a character, provided it is one and it needs at least
`lo` to be encoded in the length at hand (overlong forms are rejected). -/
def scalar? (lo n : Nat) : Option Char :=
  if lo ≤ n ∧ (n < 0xD800 ∨ (0xDFFF < n ∧ n < 0x110000)) then some (Char.ofNat n) else none

/-- One UTF-8 encoded scalar value at the head of the bytes, and the bytes after it. -/
def utf8DecodeChar : List Byte → Option (Char × List Byte)
  | [] => none
  | b0 :: rest =>
    if b0.toNat < 0x80 then some (Char.ofNat b0.toNat, rest)
    else if b0.toNat < 0xC0 then none
    else if b0.toNat < 0xE0 then
      match rest with
      | b1 :: r =>
        if isCont b1 then
          (scalar? 0x80 ((b0.toNat - 0xC0) * 64 + (b1.toNat - 0x80))).map (fun c => (c, r))
        else none
      | _ => none
    else if b0.toNat < 0xF0 then
      match rest with
      | b1 :: b2 :: r =>
        if isCont b1 && isCont b2 then
          (scalar? 0x800
              ((b0.toNat - 0xE0) * 4096 + (b1.toNat - 0x80) * 64 + (b2.toNat - 0x80))).map
            (fun c => (c, r))
        else none
      | _ => none
    else if b0.toNat < 0xF8 then
      match rest with
      | b1 :: b2 :: b3 :: r =>
        if isCont b1 && isCont b2 && isCont b3 then
          (scalar? 0x10000
              ((b0.toNat - 0xF0) * 262144 + (b1.toNat - 0x80) * 4096
                + (b2.toNat - 0x80) * 64 + (b3.toNat - 0x80))).map (fun c => (c, r))
        else none
      | _ => none
    else none

/-- Strict UTF-8 decoding; `fuel` bounds the number of characters read. -/
def utf8DecodeAux : Nat → List Byte → Option Str
  | _, [] => some []
  | 0, _ :: _ => none
  | fuel + 1, b :: bs =>
    match utf8DecodeChar (b :: bs) with
    | none => none
    | some (c, rest) =>
      match utf8DecodeAux fuel rest with
      | none => none
      | some cs => some (c :: cs)

/-- Strict UTF-8 decoding of a byte string. -/
def utf8Decode (b : List Byte) : Option Str := utf8DecodeAux b.length b

/-! ## JSON values, printer and parser (RFC 8259) -/

/-- Characters that may occur in a JSON number literal. -/
def isNumChar (c : Char) : Bool :=
  c.isDigit || c = '-' || c = '+' || c = '.' || c = 'e' || c = 'E'

/-- The exponent part of a number literal, or nothing. -/
def isExpPart : List Char → Bool
  | [] => true
  | e :: r =>
    (e = 'e' || e = 'E') &&
      (match r with
       | [] => false
       | s :: ds => if s = '+' ∨ s = '-' then !ds.isEmpty && ds.all Char.isDigit
                    else (s :: ds).all Char.isDigit)

/-- The fraction and exponent parts of a number literal, or nothing. -/
def isFracExpPart : List Char → Bool
  | '.' :: d :: r => d.isDigit && isExpPart (r.dropWhile Char.isDigit)
  | r => isExpPart r

/-- The JSON number grammar: `-? (0 | [1-9][0-9]*) (. [0-9]+)? ([eE] [+-]? [0-9]+)?`. -/
def isNumberLit (l : List Char) : Bool :=
  l.all isNumChar &&
    (match (match l with | '-' :: r => r | _ => l) with
     | [] => false
     | d :: r =>
       if d = '0' then isFracExpPart r
       else d.isDigit && isFracExpPart (r.dropWhile Char.isDigit))

/-- A JSON number, kept as its literal text so that no floating point is involved. -/
structure NumLit where
  text : Str
  valid : isNumberLit text = true

/-- JSON values. Object members are kept in document order. -/
inductive Json where
  | null
  | bool (b : Bool)
  | num (n : NumLit)
  | str (s : Str)
  | arr (xs : List Json)
  | obj (kvs : List (Str × Json))

/-- Lower-case hexadecimal digit of a value below 16. -/
def hexDigit (n : Nat) : Char :=
  if n < 10 then Char.ofNat (48 + n) else Char.ofNat (87 + n)

/-- Value of a hexadecimal digit. -/
def hexVal (c : Char) : Option Nat :=
  if 48 ≤ c.toNat ∧ c.toNat ≤ 57 then some (c.toNat - 48)
  else if 97 ≤ c.toNat ∧ c.toNat ≤ 102 then some (c.toNat - 87)
  else if 65 ≤ c.toNat ∧ c.toNat ≤ 70 then some (c.toNat - 55)
  else none

/-- One character of a string literal: quote, backslash and control characters are
escaped, everything else is written as it is. -/
def escapeChar (c : Char) : List Char :=
  if c = '"' then ['\\', '"']
  else if c = '\\' then ['\\', '\\']
  else if c.toNat < 0x20 then
    ['\\', 'u', '0', '0', hexDigit (c.toNat / 16), hexDigit (c.toNat % 16)]
  else [c]

/-- The body of a string literal (between the quotes). -/
def escapeStr : Str → List Char
  | [] => []
  | c :: cs => escapeChar c ++ escapeStr cs

/-- A string literal. -/
def renderStr (s : Str) : List Char := '"' :: (escapeStr s ++ ['"'])

mutual
/-- Compact JSON text of a value. -/
def render : Json → List Char
  | .null => ['n', 'u', 'l', 'l']
  | .bool true => ['t', 'r', 'u', 'e']
  | .bool false => ['f', 'a', 'l', 's', 'e']
  | .num n => n.text
  | .str s => renderStr s
  | .arr xs => '[' :: (renderElems xs ++ [']'])
  | .obj kvs => '{' :: (renderMembers kvs ++ ['}'])
/-- Comma-separated array elements. -/
def renderElems : List Json → List Char
  | [] => []
  | [x] => render x
  | x :: y :: xs => render x ++ ',' :: renderElems (y :: xs)
/-- Comma-separated object members. -/
def renderMembers : List (Str × Json) → List Char
  | [] => []
  | [(k, v)] => renderStr k ++ ':' :: render v
  | (k, v) :: y :: xs => renderStr k ++ ':' :: (render v ++ ',' :: renderMembers (y :: xs))
end

/-- JSON insignificant whitespace. -/
def isWs (c : Char) : Bool := c = ' ' || c = '\t' || c = '\n' || c = '\r'

/-- Skip leading whitespace. -/
def skipWs : List Char → List Char
  | [] => []
  | c :: cs => if isWs c then skipWs cs else c :: cs

/-- Four hexadecimal digits. -/
def parseHex4 : List Char → Option (Nat × List Char)
  | a :: b :: c :: d :: rest =>
    match hexVal a, hexVal b, hexVal c, hexVal d with
    | some a, some b, some c, some d => some (((a * 16 + b) * 16 + c) * 16 + d, rest)
    | _, _, _, _ => none
  | _ => none

/-- The escape sequence after a backslash. A `\u` escape naming a high surrogate must
be followed by one naming a low surrogate; a lone surrogate is rejected. -/
def parseEscape : List Char → Option (Char × List Char)
  | [] => none
  | e :: rest =>
    if e = '"' then some ('"', rest)
    else if e = '\\' then some ('\\', rest)
    else if e = '/' then some ('/', rest)
    else if e = 'b' then some (Char.ofNat 8, rest)
    else if e = 'f' then some (Char.ofNat 12, rest)
    else if e = 'n' then some ('\n', rest)
    else if e = 'r' then some ('\r', rest)
    else if e = 't' then some ('\t', rest)
    else if e = 'u' then
      match parseHex4 rest with
      | none => none
      | some (n, rest1) =>
        if n < 0xD800 ∨ 0xDFFF < n then some (Char.ofNat n, rest1)
        else if 0xDC00 ≤ n then none
        else
          match rest1 with
          | b :: u :: rest2 =>
            if b = '\\' ∧ u = 'u' then
              match parseHex4 rest2 with
              | none => none
              | some (lo, rest3) =>
                if 0xDC00 ≤ lo ∧ lo ≤ 0xDFFF then
                  some (Char.ofNat (0x10000 + (n - 0xD800) * 1024 + (lo - 0xDC00)), rest3)
                else none
            else none
          | _ => none
    else none

/-- The rest of a string literal after its opening quote: the decoded text and what
follows the closing quote. Raw control characters are rejected. -/
def parseStrBody : Nat → List Char → Option (Str × List Char)
  | 0, _ => none
  | _ + 1, [] => none
  | fuel + 1, c :: rest =>
    if c = '"' then some ([], rest)
    else if c = '\\' then
      match parseEscape rest with
      | none => none
      | some (ch, rest1) =>
        match parseStrBody fuel rest1 with
        | none => none
        | some (s, r) => some (ch :: s, r)
    else if c.toNat < 0x20 then none
    else
      match parseStrBody fuel rest with
      | none => none
      | some (s, r) => some (c :: s, r)

/-- The given literal text, then the rest. -/
def expect : List Char → List Char → Option (List Char)
  | [], input => some input
  | _ :: _, [] => none
  | p :: ps, c :: cs => if p = c then expect ps cs else none

/-- A number literal: the longest run of number characters, checked against the
number grammar. -/
def parseNum (input : List Char) : Option (Json × List Char) :=
  if h : isNumberLit (input.takeWhile isNumChar) = true then
    some (.num ⟨input.takeWhile isNumChar, h⟩, input.dropWhile isNumChar)
  else none

mutual
/-- One JSON value with leading whitespace, and the text after it. -/
def parseValue : Nat → List Char → Option (Json × List Char)
  | 0, _ => none
  | fuel + 1, input =>
    match skipWs input with
    | [] => none
    | c :: rest =>
      if c = '"' then
        match parseStrBody (rest.length + 1) rest with
        | none => none
        | some (s, r) => some (.str s, r)
      else if c = '[' then
        match skipWs rest with
        | [] => none
        | d :: r =>
          if d = ']' then some (.arr [], r)
          else
            match parseElems fuel rest with
            | none => none
            | some (xs, r1) => some (.arr xs, r1)
      else if c = '{' then
        match skipWs rest with
        | [] => none
        | d :: r =>
          if d = '}' then some (.obj [], r)
          else
            match parseMembers fuel rest with
            | none => none
            | some (kvs, r1) => some (.obj kvs, r1)
      else if c = 'n' then (expect ['u', 'l', 'l'] rest).map (fun r => (.null, r))
      else if c = 't' then (expect ['r', 'u', 'e'] rest).map (fun r => (.bool true, r))
      else if c = 'f' then (expect ['a', 'l', 's', 'e'] rest).map (fun r => (.bool false, r))
      else parseNum (c :: rest)
/-- One or more array elements up to and including the closing bracket. -/
def parseElems : Nat → List Char → Option (List Json × List Char)
  | 0, _ => none
  | fuel + 1, input =>
    match parseValue fuel input with
    | none => none
    | some (v, rest) =>
      match skipWs rest with
      | [] => none
      | c :: r =>
        if c = ',' then
          match parseElems fuel r with
          | none => none
          | some (vs, r1) => some (v :: vs, r1)
        else if c = ']' then some ([v], r)
        else none
/-- One or more object members up to and including the closing brace. -/
def parseMembers : Nat → List Char → Option (List (Str × Json) × List Char)
  | 0, _ => none
  | fuel + 1, input =>
    match skipWs input with
    | [] => none
    | q :: rest =>
      if q = '"' then
        match parseStrBody (rest.length + 1) rest with
        | none => none
        | some (k, rest1) =>
          match skipWs rest1 with
          | [] => none
          | colon :: rest2 =>
            if colon = ':' then
              match parseValue fuel rest2 with
              | none => none
              | some (v, rest3) =>
                match skipWs rest3 with
                | [] => none
                | c :: r =>
                  if c = ',' then
                    match parseMembers fuel r with
                    | none => none
                    | some (kvs, r1) => some ((k, v) :: kvs, r1)
                  else if c = '}' then some ([(k, v)], r)
                  else none
            else none
      else none
end

/-- A whole JSON document: one value, surrounded by optional whitespace. -/
def parseJson (text : List Char) : Option Json :=
  match parseValue (text.length + 1) text with
  | none => none
  | some (j, rest) => if skipWs rest = [] then some j else none


/-! ## Measures used by the round-trip proofs -/

mutual
/-- Fuel that `parseValue` needs to read the rendering of a value. -/
def Json.size : Json → Nat
  | .null => 1
  | .bool _ => 1
  | .num _ => 1
  | .str _ => 1
  | .arr xs => 1 + Json.sizeElems xs
  | .obj kvs => 1 + Json.sizeMembers kvs
/-- Fuel that `parseElems` needs. -/
def Json.sizeElems : List Json → Nat
  | [] => 0
  | x :: xs => 1 + Json.size x + Json.sizeElems xs
/-- Fuel that `parseMembers` needs. -/
def Json.sizeMembers : List (Str × Json) → Nat
  | [] => 0
  | (_, v) :: xs => 1 + Json.size v + Json.sizeMembers xs
end

/-- The text does not continue a number literal. -/
def noNumHead : List Char → Bool
  | [] => true
  | c :: _ => !isNumChar c


/-! ## Envelope (Go: `utils.Message`) -/

/-- Error taxonomy of the messaging layer (specification, section 7). -/
inductive Error where
  | ConfigError
  | ConnectionError
  | TimeoutError
  | CancellationError
  | DecodeError
  | DeliveryError (status : Nat) (body : Str)
  | ClosedError
deriving DecidableEq

/-- Modelled from the spec: the Envelope of section 3 (`utils.Message` in the tests; its
Go source is missing): an event name and a payload mapping, kept as an association list
in insertion order. A payload is an arbitrary JSON tree. -/
structure Envelope where
  event : Str
  payload : List (Str × Json)

/-- The data-model invariant: the event is not empty and payload keys are unique. -/
def Envelope.WellFormed (e : Envelope) : Prop :=
  e.event ≠ [] ∧ (e.payload.map Prod.fst).Nodup

/-- Modelled from the spec: `New(event)` (source missing) returns an Envelope with the
given event and an empty payload mapping, and fails with `ConfigError` on an empty event. -/
def Envelope.New (event : Str) : Except Error Envelope :=
  if event = [] then .error .ConfigError else .ok { event := event, payload := [] }

/-- Modelled from the spec: `AddPayload(key, payload)` (source missing) inserts or
overwrites the entry under `key`; the last write wins. -/
def Envelope.AddPayload (e : Envelope) (key : Str) (p : Json) : Envelope :=
  { e with payload := e.payload.filter (fun kv => decide (kv.1 ≠ key)) ++ [(key, p)] }

/-- The entries of a payload mapping stored under a key. -/
def Envelope.entries (e : Envelope) (key : Str) : List (Str × Json) :=
  e.payload.filter (fun kv => decide (kv.1 = key))

/-- The JSON document of an Envelope (specification, section 6):
`{"event": "<string>", "payload": {"<name>": ..., ...}}`. -/
def Envelope.toJson (e : Envelope) : Json :=
  .obj [(['e', 'v', 'e', 'n', 't'], .str e.event),
        (['p', 'a', 'y', 'l', 'o', 'a', 'd'], .obj e.payload)]

/-- Modelled from the spec: `Serialize()` (source missing) produces the wire encoding of
section 6, UTF-8 JSON text. -/
def Envelope.Serialize (e : Envelope) : List Byte := utf8Encode (render e.toJson)

/-- The member of an object stored under a name; a later duplicate wins. -/
def field? (key : Str) : List (Str × Json) → Option Json
  | [] => none
  | (k, v) :: rest =>
    match field? key rest with
    | some w => some w
    | none => if k = key then some v else none

/-- The Envelope with the given event whose payload mapping is filled from the members
of a JSON object, in document order. -/
def Envelope.ofMembers (event : Str) (members : List (Str × Json)) : Envelope :=
  members.foldl (fun e kv => e.AddPayload kv.1 kv.2) { event := event, payload := [] }

/-- Modelled from the spec: `LoadMessage(bytes)` (source missing) parses the wire
encoding back into an Envelope and fails with `DecodeError` when the bytes are not a
UTF-8 JSON object with a string `event` and an object `payload`, or when the event is
empty. -/
def LoadMessage (b : List Byte) : Except Error Envelope :=
  match utf8Decode b with
  | none => .error .DecodeError
  | some text =>
    match parseJson text with
    | some (.obj members) =>
      match field? ['e', 'v', 'e', 'n', 't'] members,
            field? ['p', 'a', 'y', 'l', 'o', 'a', 'd'] members with
      | some (.str ev), some (.obj ps) =>
        if ev = [] then .error .DecodeError else .ok (Envelope.ofMembers ev ps)
      | _, _ => .error .DecodeError
    | _ => .error .DecodeError

/-- The wire format of section 6, as a relation: the bytes are UTF-8 text of a JSON
object that has a string member `event` and an object member `payload`. -/
def EncodesWire (b : List Byte) (event : Str) (members : List (Str × Json)) : Prop :=
  ∃ text doc, utf8Decode b = some text ∧ parseJson text = some (.obj doc) ∧
    field? ['e', 'v', 'e', 'n', 't'] doc = some (.str event) ∧
    field? ['p', 'a', 'y', 'l', 'o', 'a', 'd'] doc = some (.obj members)

instance (e : Envelope) : Decidable e.WellFormed := by
  unfold Envelope.WellFormed
  infer_instance

/-- The number literal `123`. -/
def num123 : NumLit := ⟨['1', '2', '3'], rfl⟩

/-- The Envelope built in the SNS test: event `sns.test` with the payloads `payment`
and `bank`. -/
def snsTestEnvelope : Envelope :=
  { event := "sns.test".data,
    payload :=
      [("payment".data,
          .obj [("entity".data,
            .obj [("id".data, .str "pay_14341234".data), ("amount".data, .num num123)])]),
       ("bank".data,
          .obj [("entity".data,
            .obj [("id".data, .str "bank_fadsfas".data),
                  ("bankAccountNumber".data, .str "0000021312".data)])])] }


/-! ## Consumer poll loop and proxy producer (Go: package `kafka`) -/

/-- Raw broker message of section 3 (timestamp and headers are carried along untouched
and left out). -/
structure RawMessage where
  key : List Byte
  value : List Byte
  partition : Int
  offset : Int
deriving DecidableEq

/-- What one call to the underlying client's poll primitive surfaces within the poll
interval: a message, a poll error, or nothing. -/
inductive PollEvent where
  | message (m : RawMessage)
  | error (reason : Str)
  | nothing
deriving DecidableEq

/-- What the poll loop does, in order: it reads the cancellation signal at the top of the
loop, pushes a message to the output stream, logs a poll error, closes the output stream. -/
inductive PollAction where
  | checkCtx (done : Bool)
  | push (m : RawMessage)
  | logError (reason : Str)
  | close
deriving DecidableEq

/-- The actions of one iteration on the event that the client surfaced. -/
def pollStep : PollEvent → List PollAction
  | .message m => [.push m]
  | .error reason => [.logError reason]
  | .nothing => []

/-- Modelled from the spec: `Poll(ctx, pollIntervalMs, outputStream)` of section 4.4 (source
missing), on a Consumer that is not closed. `ctxDone i` is the cancellation signal as read
at the top of iteration `i`, `client i` is what the underlying client surfaces in
iteration `i`, a push completes once the receiver takes the message (backpressure only
delays it). `fuel` bounds the number of iterations run; the result is the sequence of
actions so far and whether `Poll` has returned. -/
def Poll (ctxDone : Nat → Bool) (client : Nat → PollEvent) : Nat → Nat → List PollAction × Bool
  | 0, _ => ([], false)
  | fuel + 1, i =>
    if ctxDone i then ([.checkCtx true, .close], true)
    else
      ((PollAction.checkCtx false :: pollStep (client i)) ++ (Poll ctxDone client fuel (i + 1)).1,
       (Poll ctxDone client fuel (i + 1)).2)

/-- The message of a poll event, if it is one. -/
def PollEvent.message? : PollEvent → Option RawMessage
  | .message m => some m
  | _ => none

/-- The reason of a poll event that is an error. -/
def PollEvent.error? : PollEvent → Option Str
  | .error reason => some reason
  | _ => none

/-- The messages that the client surfaced in iterations `0 .. n-1`, in that order. -/
def surfaced (client : Nat → PollEvent) (n : Nat) : List RawMessage :=
  ((List.range n).map client).filterMap PollEvent.message?

/-- The poll errors that the client reported in iterations `0 .. n-1`. -/
def surfacedErrors (client : Nat → PollEvent) (n : Nat) : List Str :=
  ((List.range n).map client).filterMap PollEvent.error?

/-- The actions up to the close of the output stream. -/
def beforeClose (t : List PollAction) : List PollAction :=
  t.takeWhile (fun a => decide (a ≠ .close))

/-- The messages pushed to the output stream, in order. -/
def pushed (t : List PollAction) : List RawMessage :=
  t.filterMap (fun a => match a with | .push m => some m | _ => none)

/-- The poll errors logged, in order. -/
def logged (t : List PollAction) : List Str :=
  t.filterMap (fun a => match a with | .logError r => some r | _ => none)

/-- The number of times the output stream is closed. -/
def closeCount (t : List PollAction) : Nat := t.count .close

/-- The message decodes to an Envelope with the given event. -/
def hasEvent (x : Str) (m : RawMessage) : Bool :=
  match LoadMessage m.value with
  | .ok e => decide (e.event = x)
  | .error _ => false

/-- An HTTP response of the proxy. -/
structure HTTPResponse where
  status : Nat
  body : Str
deriving DecidableEq

/-- The body of the proxy call: `{"topic": ..., "key": ..., "value": <JSON-encoded envelope>}`. -/
structure ProxyRequest where
  topic : Str
  key : Str
  value : List Byte
deriving DecidableEq

/-- A proxy-transport producer, bound to one topic. -/
structure HTTPProducer where
  topic : Str

/-- Modelled from the spec: `Produce(ctx, key, envelope)` of the proxy transport (section
4.3 and 6; source missing). It posts topic, key and the serialized Envelope to the proxy;
any 2xx status is success, every other status is a `DeliveryError` carrying the status
code and the response body. `proxy` is the HTTP round trip. -/
def HTTPProducer.Produce (p : HTTPProducer) (proxy : ProxyRequest → HTTPResponse)
    (key : Str) (e : Envelope) : Except Error Unit :=
  let resp := proxy { topic := p.topic, key := key, value := e.Serialize }
  if 200 ≤ resp.status ∧ resp.status < 300 then .ok ()
  else .error (.DeliveryError resp.status resp.body)

/-- A cancellation signal that fires at iteration 3. -/
def ctxDoneAt3 (i : Nat) : Bool := decide (3 ≤ i)

/-- An Envelope with event `X` and no payload, as produced in the poll tests. -/
def pollTestEnvelope : Envelope := { event := ['X'], payload := [] }

/-- A client that surfaces a message, a poll error, and another message. -/
def sampleClient : Nat → PollEvent
  | 0 => .message { key := [0x30], value := pollTestEnvelope.Serialize, partition := 0, offset := 0 }
  | 1 => .error "transient".data
  | 2 => .message { key := [0x31], value := pollTestEnvelope.Serialize, partition := 0, offset := 1 }
  | _ => .nothing


/-! ## Secret manager cache (Go: `aws/secretmanager.go`) -/

/-- The AWS SDK's `secretsmanager.GetSecretValueOutput`, reduced to the fields that a
secret lookup answers with; pointer fields are options (`nil` is `none`). -/
structure GetSecretValueOutput where
  ARN : Option Str
  Name : Option Str
  SecretBinary : Option (List Byte)
  SecretString : Option Str
deriving DecidableEq

/-- Go `time.Time` and `time.Duration`, in nanoseconds. -/
abbrev Time := Int

/-- Go `time.Minute`. -/
def Minute : Int := 60 * 1000000000

/-- Go `secretManagerCache`: a cached lookup and the time it expires. -/
structure secretManagerCache where
  data : GetSecretValueOutput
  expireTime : Time
deriving DecidableEq

/-- The type of the process-wide `secretCache`, a Go `map[string]secretManagerCache`. -/
abbrev SecretCache := Str → Option secretManagerCache

/-- The map assignment `cache[key] = value`. -/
def SecretCache.set (cache : SecretCache) (key : Str) (value : secretManagerCache) :
    SecretCache :=
  fun k => if k = key then some value else cache k

/-- How a call ends when it does not return a value: with a Go `error` (its message), or
with a run-time panic on a nil pointer dereference. -/
inductive Failure where
  | error (message : Str)
  | nilDereference
deriving DecidableEq

/-- Go `SecretManager.GetSecretValueWithContext`: one remote retrieval through the SDK
client `sdk`; an SDK error is wrapped. -/
def GetSecretValueWithContext (sdk : Str → Except Str GetSecretValueOutput) (secretArn : Str) :
    Except Str GetSecretValueOutput :=
  match sdk secretArn with
  | .error err => .error ("SecretManager.GetSecretNonCache: ".data ++ err)
  | .ok res => .ok res

/-- The tail of `GetSecret`: `json.Unmarshal([]byte(*data.SecretString), &data)`.
`unmarshal` is `encoding/json` decoding into a `map[string]interface{}`. -/
def decodeSecret {Data : Type} (unmarshal : Str → Except Str Data)
    (out : GetSecretValueOutput) : Except Failure Data :=
  match out.SecretString with
  | none => .error .nilDereference
  | some s =>
    match unmarshal s with
    | .error err => .error (.error ("SecretManager.GetSecret: ".data ++ err))
    | .ok data => .ok data

/-- What a call of `GetSecret` leaves behind: its result, the cache, and the secret
identifiers it asked the remote service for. -/
structure GetSecretResult (Data : Type) where
  result : Except Failure Data
  cache : SecretCache
  remoteCalls : List Str

/-- The zero value of `secretManagerCache`, which a Go map lookup yields for a missing
key. -/
def secretManagerCache.zero : secretManagerCache :=
  { data := { ARN := none, Name := none, SecretBinary := none, SecretString := none },
    expireTime := 0 }

/-- Go `SecretManager.GetSecret`. `cache` is the process-wide `secretCache` before the
call, `now` is `time.Now()` at the cache check and `nowStore` is `time.Now()` when a
retrieved secret is stored. -/
def GetSecret {Data : Type} (sdk : Str → Except Str GetSecretValueOutput)
    (unmarshal : Str → Except Str Data) (cache : SecretCache) (now nowStore : Time)
    (secretArn : Str) : GetSecretResult Data :=
  let secretCacheData := (cache secretArn).getD secretManagerCache.zero
  let ok := (cache secretArn).isSome
  if ok && decide (now < secretCacheData.expireTime) then
    { result := decodeSecret unmarshal secretCacheData.data, cache := cache, remoteCalls := [] }
  else
    match GetSecretValueWithContext sdk secretArn with
    | .error err =>
      { result := .error (.error ("SecretManager.GetSecret: ".data ++ err)),
        cache := cache, remoteCalls := [secretArn] }
    | .ok res =>
      let secretCacheData : secretManagerCache :=
        { expireTime := nowStore + Minute * 15, data := res }
      { result := decodeSecret unmarshal secretCacheData.data,
        cache := cache.set secretArn secretCacheData,
        remoteCalls := [secretArn] }

/-- A stored secret whose string is a JSON object. -/
def sampleSecret : GetSecretValueOutput :=
  { ARN := some "arn:1".data, Name := some "db".data, SecretBinary := none,
    SecretString := some "\x7b\"user\":\"u\"\x7d".data }

/-- An SDK client that knows one secret. -/
def sampleSdk (secretArn : Str) : Except Str GetSecretValueOutput :=
  if secretArn = "arn:1".data then .ok sampleSecret else .error "ResourceNotFoundException".data

/-- Decoding of a secret string with the JSON parser of this development. -/
def sampleUnmarshal (s : Str) : Except Str (List (Str × Json)) :=
  match parseJson s with
  | some (.obj members) => .ok members
  | _ => .error "invalid character".data

/-- A cache holding `arn:1` until time 100. -/
def sampleCache : SecretCache :=
  SecretCache.set (fun _ => none) "arn:1".data { data := sampleSecret, expireTime := 100 }


/-! ## Kafka client configuration (Go: `kafka/config.go`) -/

/-- Go `KafkaCred`. A field of type `interface{}` is `none` when it is the nil interface
and otherwise holds the JSON tree that `encoding/json` writes for its value. -/
structure KafkaCred where
  Brokers : Option Json
  Username : Option Json
  Password : Option Json
  SASLMechanism : Option Json
  SASLProtocol : Option Json
  ClientID : Option Json

/-- Go `KafkaConsumerConfig`; the embedded `*KafkaCred` may be nil. -/
structure KafkaConsumerConfig where
  KafkaCred : Option KafkaCred
  GroupID : Option Json
  GoEventChannel : Bool
  OffsetReset : Option Json

/-- Go `KafkaProducerConfig`; the embedded `*KafkaCred` may be nil. -/
structure KafkaProducerConfig where
  KafkaCred : Option KafkaCred
  Acknowledge : Option Json

/-- The member that `encoding/json` writes for an `interface{}` field tagged
`json:"<key>,omitempty"`: none for the nil interface, else the key with the value. -/
def omitEmpty (key : Str) (field : Option Json) : List (Str × Json) :=
  match field with
  | none => []
  | some v => [(key, v)]

/-- The member that `encoding/json` writes for a `bool` field tagged
`json:"<key>,omitempty"`: none for `false`. -/
def omitEmptyBool (key : Str) (field : Bool) : List (Str × Json) :=
  if field then [(key, .bool true)] else []

/-- The members of a `KafkaCred`, in field order, by the tags of `kafka/config.go`. -/
def KafkaCred.members (c : KafkaCred) : List (Str × Json) :=
  omitEmpty "bootstrap.servers".data c.Brokers ++
  omitEmpty "sasl.username".data c.Username ++
  omitEmpty "sasl.password".data c.Password ++
  omitEmpty "sasl.mechanisms".data c.SASLMechanism ++
  omitEmpty "security.protocol".data c.SASLProtocol ++
  omitEmpty "client.id".data c.ClientID

/-- The members of an embedded `*KafkaCred`: those of the struct it points to, none when
the pointer is nil. -/
def embeddedCredMembers : Option KafkaCred → List (Str × Json)
  | none => []
  | some c => c.members

/-- The JSON object that `json.Marshal` writes for a `KafkaConsumerConfig`: the promoted
fields of the embedded struct first, then the own fields in declaration order. -/
def KafkaConsumerConfig.members (c : KafkaConsumerConfig) : List (Str × Json) :=
  embeddedCredMembers c.KafkaCred ++
  omitEmpty "group.id".data c.GroupID ++
  omitEmptyBool "go.events.channel.enable".data c.GoEventChannel ++
  omitEmpty "auto.offset.reset".data c.OffsetReset

/-- The JSON object that `json.Marshal` writes for a `KafkaProducerConfig`. -/
def KafkaProducerConfig.members (c : KafkaProducerConfig) : List (Str × Json) :=
  embeddedCredMembers c.KafkaCred ++ omitEmpty "acks".data c.Acknowledge

/-- The JSON text of a `KafkaConsumerConfig`. -/
def KafkaConsumerConfig.MarshalJSON (c : KafkaConsumerConfig) : List Byte :=
  utf8Encode (render (.obj c.members))

/-- The JSON text of a `KafkaProducerConfig`. -/
def KafkaProducerConfig.MarshalJSON (c : KafkaProducerConfig) : List Byte :=
  utf8Encode (render (.obj c.members))

/-- The value of a credential field of a configuration whose embedded pointer may be
nil. -/
def credField (cred : Option KafkaCred) (f : KafkaCred → Option Json) : Option Json :=
  match cred with
  | none => none
  | some c => f c

/-- A consumer configuration as in the test environment: brokers, group and offset reset
set, the event channel off, everything else unset. -/
def sampleConsumerConfig : KafkaConsumerConfig :=
  { KafkaCred := some { Brokers := some (.str "localhost:9092".data), Username := none,
                        Password := none, SASLMechanism := none, SASLProtocol := none,
                        ClientID := none },
    GroupID := some (.str "g1".data), GoEventChannel := false,
    OffsetReset := some (.str "earliest".data) }


/-! ## HTTP error middleware (Go: `baseapp/middleware.go`, `baseapp/utilities.go`) -/

/-- The type `CustomError` of the repository's package `errors`, which is declared
outside the files at hand: taken as the record of the fields that `SendErrorResponse`
reads and that `NewCustomError` is given. `ErrorData` is an `interface{}` (`none` is
nil). -/
structure CustomError where
  ErrorCode : Str
  ErrorMessage : Str
  ErrorData : Option Json
  Notify : Bool
deriving Inhabited

/-- The type `HTTPError` of the repository's package `errors`, which is declared outside
the files at hand: taken as a `CustomError` (whose fields `SendErrorResponse` reads
through the `HTTPError`) with an HTTP status code. -/
structure HTTPError where
  CustomError : CustomError
  ErrorStatusCode : Int
deriving Inhabited

/-- One error of an error chain, by its dynamic type. -/
inductive ErrNode where
  | http (e : HTTPError)
  | custom (e : CustomError)
  | wrap (pre : Str)
  | plain (message : Str)

/-- A non-nil Go `error`: the chain that repeated `Unwrap` walks, outermost error first. -/
abbrev GoError := List ErrNode

/-- Go `errors.As(err, &httpErr)` with `httpErr` a `*errors.HTTPError`: the first error of
the chain of that type. -/
def asHTTPError : GoError → Option HTTPError
  | [] => none
  | .http e :: _ => some e
  | _ :: rest => asHTTPError rest

/-- Go `errors.As(err, &customError)` with `customError` a `*errors.CustomError`. -/
def asCustomError : GoError → Option CustomError
  | [] => none
  | .custom e :: _ => some e
  | _ :: rest => asCustomError rest

/-- Go `errors.NewCustomError(errorCode, errorMessage, err, errorData, notify)`, declared
outside the files at hand: the `CustomError` with the given fields (the cause `err` is
kept in the error chain, see `SendErrorResponse`). -/
def NewCustomError (errorCode errorMessage : Str) (errorData : Option Json) (notify : Bool) :
    CustomError :=
  { ErrorCode := errorCode, ErrorMessage := errorMessage, ErrorData := errorData,
    Notify := notify }

/-- The data of the error made for an unknown error: Go
`map[string]string{"error": "Internal error occurred, if persist contact technical team"}`. -/
def unknownErrorData : Json :=
  .obj [("error".data, .str "Internal error occurred, if persist contact technical team".data)]

/-- The two methods of the error notifier. -/
inductive NotifyKind where
  | Send5XX
  | Send4XX
deriving DecidableEq

/-- One call of the error notifier with its arguments. -/
structure Notification where
  kind : NotifyKind
  errorCode : Str
  err : GoError
  stackTrace : Str
  errorData : Option Json

/-- The string constants `HttpHeaderContentType` and `HttpContentTypeJSON` of package
`baseapp`, which are declared outside the files at hand; they are kept by name. -/
inductive HttpConst where
  | HttpHeaderContentType
  | HttpContentTypeJSON
deriving DecidableEq

/-- What was done to a `http.ResponseWriter`, in order: `w.Header().Add(key, value)`,
`w.WriteHeader(statusCode)`, `w.Write(body)`. -/
inductive WriterCall where
  | addHeader (key value : HttpConst)
  | writeHeader (statusCode : Int)
  | write (body : List Byte)
deriving DecidableEq

/-- Go `checkWriteHeaderCode(code)` of `net/http`, which `w.WriteHeader(code)` runs when
the response header has not been written yet: it panics for a code below 100 or above
999. The result is whether it panics. -/
def checkWriteHeaderCode (code : Int) : Bool := decide (code < 100 ∨ code > 999)

/-- What a call of `WriteJsonWithStatusCode` does to the response writer: the calls it
makes, in order, and the status code with which `w.WriteHeader` panicked (the panic value
is the Go string `invalid WriteHeader code <code>`), if it did; the call that panics is
the last one made. -/
structure WriteResult where
  calls : List WriterCall
  panic : Option Int

/-- Go `WriteJsonWithStatusCode(w, statusCode, responseBody)` for a `[]byte` body, which
is written as it is: the content type header, the status code, the body. `wroteHeader`
says whether the response header was written before the call. `w.WriteHeader` of
`net/http` returns at once when it was, and otherwise panics for a status code outside
100..999 (`checkWriteHeaderCode`); the body is then not written. -/
def WriteJsonWithStatusCode (wroteHeader : Bool) (statusCode : Int) (blob : List Byte) :
    WriteResult :=
  if wroteHeader = false ∧ checkWriteHeaderCode statusCode = true then
    { calls := [.addHeader .HttpHeaderContentType .HttpContentTypeJSON,
                .writeHeader statusCode],
      panic := some statusCode }
  else
    { calls := [.addHeader .HttpHeaderContentType .HttpContentTypeJSON,
                .writeHeader statusCode, .write blob],
      panic := none }

/-- The parts of a `BaseApp` that error handling uses: whether an error notifier is
configured (`b.errorNotifier != nil`), and the methods `GetErrorResponse` of the two
error types of the repository's `errors` package, whose source is not at hand. -/
structure BaseApp where
  hasErrorNotifier : Bool
  httpErrorResponse : HTTPError → List Byte
  customErrorResponse : CustomError → List Byte

/-- What `SendErrorResponse` does: its calls of the error notifier, its calls on the
response writer, and the status code with which `w.WriteHeader` panicked, if it did (the
panic then leaves `SendErrorResponse`). -/
structure ErrorResponse where
  notifications : List Notification
  writes : List WriterCall
  panic : Option Int

/-- The notifier calls of `SendErrorResponse` (lines 95 to 102). -/
def notifyCalls (b : BaseApp) (notify : Bool) (statusCode : Int) (errorCode : Str)
    (err : GoError) (stackTrace : Str) (errorData : Option Json) : List Notification :=
  if notify && b.hasErrorNotifier then
    if statusCode ≥ 500 then
      [{ kind := .Send5XX, errorCode := errorCode, err := err, stackTrace := stackTrace,
         errorData := errorData }]
    else
      [{ kind := .Send4XX, errorCode := errorCode, err := err, stackTrace := stackTrace,
         errorData := errorData }]
  else []

/-- Go `BaseApp.SendErrorResponse(ctx, w, stackTrace, err)`. `wroteHeader` says whether
the header of the response `w` was written before the call. -/
def SendErrorResponse (b : BaseApp) (wroteHeader : Bool) (stackTrace : Str) (err : GoError) :
    ErrorResponse :=
  match asHTTPError err with
  | some httpErr =>
    { notifications := notifyCalls b httpErr.CustomError.Notify httpErr.ErrorStatusCode
        httpErr.CustomError.ErrorCode err stackTrace httpErr.CustomError.ErrorData,
      writes := (WriteJsonWithStatusCode wroteHeader httpErr.ErrorStatusCode
        (b.httpErrorResponse httpErr)).calls,
      panic := (WriteJsonWithStatusCode wroteHeader httpErr.ErrorStatusCode
        (b.httpErrorResponse httpErr)).panic }
  | none =>
    match asCustomError err with
    | some customError =>
      { notifications := notifyCalls b customError.Notify 500 [] err stackTrace
          customError.ErrorData,
        writes := (WriteJsonWithStatusCode wroteHeader 500
          (b.customErrorResponse customError)).calls,
        panic := (WriteJsonWithStatusCode wroteHeader 500
          (b.customErrorResponse customError)).panic }
    | none =>
      let customError := NewCustomError "UNKNOWN".data "Unknown error".data
        (some unknownErrorData) true
      { notifications := notifyCalls b false 500 [] (.custom customError :: err) stackTrace none,
        writes := (WriteJsonWithStatusCode wroteHeader 500
          (b.customErrorResponse customError)).calls,
        panic := (WriteJsonWithStatusCode wroteHeader 500
          (b.customErrorResponse customError)).panic }

/-- A value given to `panic`: a Go `error`, any other value, or the string
`invalid WriteHeader code <code>` that `w.WriteHeader` of `net/http` panics with. -/
inductive PanicValue (V : Type) where
  | error (err : GoError)
  | value (v : V)
  | invalidWriteHeaderCode (code : Int)

/-- What `ctx.Value(ContextKeyError)` holds in the context that a handler passes to
`SetHandlerError`: the setter installed by `HandleExceptionMiddleware` (the request's
context and those derived from it), nothing, or something that is not a `func(error)`. -/
inductive ErrorCtx where
  | request
  | noSetter
  | corrupted
deriving DecidableEq

/-- Go `BaseApp.SetHandlerError(ctx, err)`, on the middleware's variable `handlerError`:
its new value, or the panic. `err` is `none` for a nil error. -/
def SetHandlerError {V : Type} (ctx : ErrorCtx) (err : Option GoError)
    (handlerError : Option GoError) : Except (PanicValue V) (Option GoError) :=
  match ctx with
  | .noSetter => .ok handlerError
  | .corrupted =>
    .error (.error (.wrap "context error handler corrupted, error to handle: ".data
      :: err.getD []))
  | .request => .ok err

/-- What a wrapped handler does that the middleware can see, in order: calls of
`SetHandlerError`, writing the response header (by `w.WriteHeader` with a final status or
by `w.Write`), and a `panic` with a non-nil value (which ends the handler). -/
inductive HandlerAction (V : Type) where
  | setHandlerError (ctx : ErrorCtx) (err : Option GoError)
  | writeResponse
  | panic (rec : PanicValue V)

/-- How the run of `next.ServeHTTP(w, r)` ends: the final value of `handlerError`,
whether the response header has been written, and the value of the panic that ended the
handler, if one did. -/
structure HandlerRun (V : Type) where
  handlerError : Option GoError
  wroteHeader : Bool
  panic : Option (PanicValue V)

/-- The run of `next.ServeHTTP(w, r)` from a value of `handlerError` and a state of the
response header. -/
def runHandler {V : Type} : List (HandlerAction V) → Option GoError → Bool → HandlerRun V
  | [], handlerError, wroteHeader =>
    { handlerError := handlerError, wroteHeader := wroteHeader, panic := none }
  | .panic rec :: _, handlerError, wroteHeader =>
    { handlerError := handlerError, wroteHeader := wroteHeader, panic := some rec }
  | .writeResponse :: rest, handlerError, _ => runHandler rest handlerError true
  | .setHandlerError ctx err :: rest, handlerError, wroteHeader =>
    match SetHandlerError ctx err handlerError with
    | .ok h => runHandler rest h wroteHeader
    | .error rec =>
      { handlerError := handlerError, wroteHeader := wroteHeader, panic := some rec }

/-- The error that the deferred function of `HandleExceptionMiddleware` makes of a
recovered value: the value itself when it is an error, else
`fmt.Errorf("non error panic: %v", string(blob))` with `blob` the `json.Marshal` of it;
the JSON encoding of the string of `w.WriteHeader` is its string literal. -/
def recoveredError {V : Type} (marshal : V → Str) : PanicValue V → GoError
  | .error err => err
  | .value v => [.plain ("non error panic: ".data ++ marshal v)]
  | .invalidWriteHeaderCode code =>
    [.plain ("non error panic: ".data
      ++ renderStr ("invalid WriteHeader code ".data ++ (toString code).data))]

/-- What a request leaves behind after `HandleExceptionMiddleware`: the calls of
`SendErrorResponse`, in order, and the panic that leaves the middleware, if any. -/
structure MiddlewareResult (V : Type) where
  responses : List ErrorResponse
  panic : Option (PanicValue V)

/-- The deferred function of `HandleExceptionMiddleware` (lines 109 to 121) on a recovered
value `rec`: it sends the error response; a panic of `SendErrorResponse` in it is not
recovered and leaves the middleware. `sent` are the responses before it. -/
def recoverPanic {V : Type} (b : BaseApp) (stack : Str) (marshal : V → Str)
    (wroteHeader : Bool) (sent : List ErrorResponse) (rec : PanicValue V) :
    MiddlewareResult V :=
  let resp := SendErrorResponse b wroteHeader stack (recoveredError marshal rec)
  { responses := sent ++ [resp], panic := resp.panic.map PanicValue.invalidWriteHeaderCode }

/-- Go `BaseApp.HandleExceptionMiddleware(next)` serving one request. `handler` is what
`next` does, `stack` is `debug.Stack()` in the deferred function and `marshal` is
`json.Marshal` followed by `string`. The function deferred at line 109 is pending for the
whole body: its `recover()` takes a panic of the handler (line 125) and also a panic of
`SendErrorResponse` at line 127, whose value is the string of `w.WriteHeader`. A panic of
`SendErrorResponse` inside the deferred function (line 119) is not recovered. -/
def HandleExceptionMiddleware {V : Type} (b : BaseApp) (stack : Str) (marshal : V → Str)
    (handler : List (HandlerAction V)) : MiddlewareResult V :=
  let run := runHandler handler none false
  match run.panic with
  | some rec => recoverPanic b stack marshal run.wroteHeader [] rec
  | none =>
    match run.handlerError with
    | some handlerError =>
      let resp := SendErrorResponse b run.wroteHeader [] handlerError
      match resp.panic with
      | none => { responses := [resp], panic := none }
      | some code =>
        recoverPanic b stack marshal run.wroteHeader [resp] (.invalidWriteHeaderCode code)
    | none => { responses := [], panic := none }

/-- The non-nil errors that a handler recorded through the middleware's setter, in order,
up to its panic if it panics. -/
def recordedErrors {V : Type} : List (HandlerAction V) → List GoError
  | [] => []
  | .panic _ :: _ => []
  | .writeResponse :: rest => recordedErrors rest
  | .setHandlerError .request (some err) :: rest => err :: recordedErrors rest
  | .setHandlerError .corrupted _ :: _ => []
  | .setHandlerError _ _ :: rest => recordedErrors rest

/-- The argument of the last call of `SetHandlerError` that reached the middleware's
setter (`none` for nil), if there was such a call, for a handler that does not panic. -/
def lastRecorded {V : Type} : List (HandlerAction V) → Option (Option GoError) →
    Option (Option GoError)
  | [], last => last
  | .panic _ :: _, last => last
  | .writeResponse :: rest, last => lastRecorded rest last
  | .setHandlerError .request err :: rest, _ => lastRecorded rest (some err)
  | .setHandlerError .corrupted _ :: _, last => last
  | .setHandlerError .noSetter _ :: rest, last => lastRecorded rest last

/-- The handler ends with a panic (its own, or that of `SetHandlerError`). -/
def panics {V : Type} (handler : List (HandlerAction V)) : Bool :=
  (runHandler handler none false).panic.isSome

/-- An application with an error notifier, whose error bodies are the error codes. -/
def sampleApp : BaseApp :=
  { hasErrorNotifier := true,
    httpErrorResponse := fun e => utf8Encode e.CustomError.ErrorCode,
    customErrorResponse := fun e => utf8Encode e.ErrorCode }

/-- An HTTP error with status 404 that asks for notification. -/
def notFound : HTTPError :=
  { CustomError := { ErrorCode := "NOT_FOUND".data, ErrorMessage := "no such thing".data,
                     ErrorData := none, Notify := true },
    ErrorStatusCode := 404 }

/-- An HTTP error whose status code was left at 0 and that asks for notification. -/
def zeroStatus : HTTPError :=
  { CustomError := { ErrorCode := "BROKEN".data, ErrorMessage := "no status".data,
                     ErrorData := none, Notify := true },
    ErrorStatusCode := 0 }

/-- A custom error that asks for notification. -/
def outOfStock : CustomError :=
  { ErrorCode := "OUT_OF_STOCK".data, ErrorMessage := "nothing left".data,
    ErrorData := none, Notify := true }

/-- A handler that records an error and then records nil. -/
def clearingHandler : List (HandlerAction Json) :=
  [.setHandlerError .request (some [.http notFound]), .setHandlerError .request none]

/-- A handler that records an error and then panics with a value that is not an error. -/
def panickingHandler : List (HandlerAction Json) :=
  [.setHandlerError .request (some [.http notFound]), .panic (.value (.str "boom".data))]

/-- A handler that panics with an HTTP error whose status code is 0. -/
def zeroStatusPanicHandler : List (HandlerAction Json) :=
  [.panic (.error [.http zeroStatus])]

/-- A handler that records an HTTP error whose status code is 0. -/
def zeroStatusRecordHandler : List (HandlerAction Json) :=
  [.setHandlerError .request (some [.http zeroStatus])]

/-- A handler that writes its response and then panics with that HTTP error. -/
def writeThenPanicHandler : List (HandlerAction Json) :=
  [.writeResponse, .panic (.error [.http zeroStatus])]

/-- A handler that records an HTTP error with status 404 and returns. -/
def recordingHandler : List (HandlerAction Json) :=
  [.setHandlerError .request (some [.http notFound])]


/-! ## PKCS7 padding and AES-CBC (Go: `crypto/padding/pkcs7.go`, `crypto/aes/cbcv2.go`) -/

/-- A Go run-time panic raised by the code of this section. -/
inductive RuntimePanic where
  | indexOutOfRange
  | sliceBoundsOutOfRange
  | integerDivideByZero
  | negativeRepeatCount
  | ivLengthMismatch
  | inputNotFullBlocks
deriving DecidableEq

/-- Go `padding.PKCS7`. -/
structure PKCS7 where
  blockSize : Int
deriving DecidableEq

/-- Go `padding.NewPKCS7(blockSize)`. -/
def NewPKCS7 (blockSize : Int) : PKCS7 := { blockSize := blockSize }

/-- Go `PKCS7.UnPad(encryptedData)`: the index expression `encryptedData[length-1]`
panics on an index out of range, the slice expression `encryptedData[:(length -
unpadding)]` panics on a negative bound. -/
def PKCS7.UnPad (_p : PKCS7) (encryptedData : List Byte) : Except RuntimePanic (List Byte) :=
  let length : Int := encryptedData.length
  if length - 1 < 0 ∨ length ≤ length - 1 then .error .indexOutOfRange
  else
    let unpadding : Int := (encryptedData.getD (length - 1).toNat 0).toNat
    if length - unpadding < 0 then .error .sliceBoundsOutOfRange
    else .ok (encryptedData.take (length - unpadding).toNat)

/-- Go `PKCS7.Pad(plainData)`: `%` is the truncated remainder and panics on a zero
divisor, `byte(padding)` keeps the low eight bits, `bytes.Repeat` panics on a negative
count. -/
def PKCS7.Pad (p : PKCS7) (plainData : List Byte) : Except RuntimePanic (List Byte) :=
  if p.blockSize = 0 then .error .integerDivideByZero
  else
    let padding : Int := p.blockSize - (plainData.length : Int).tmod p.blockSize
    if padding < 0 then .error .negativeRepeatCount
    else .ok (plainData ++ List.replicate padding.toNat (UInt8.ofNat (padding % 256).toNat))

/-- The interface `crypto.Padder` of the repository, which is declared outside the files
at hand: the two methods that `AESCBCV2` calls. -/
structure Padder where
  Pad : List Byte → Except RuntimePanic (List Byte)
  UnPad : List Byte → Except RuntimePanic (List Byte)

/-- A `*PKCS7` as a `crypto.Padder`. -/
def PKCS7.toPadder (p : PKCS7) : Padder := { Pad := p.Pad, UnPad := p.UnPad }

/-- The AES block size in bytes (`aes.BlockSize`). -/
def aesBlockSize : Nat := 16

/-- The AES block function of `crypto/aes`, a library outside the repository: encryption
and decryption of one block under a key. -/
structure BlockCipher where
  encrypt : List Byte → List Byte → List Byte
  decrypt : List Byte → List Byte → List Byte

/-- Go `aes.NewCipher(key)`: a key of 16, 24 or 32 bytes is accepted, any other length is
a `KeySizeError`. -/
def aesNewCipher (key : List Byte) : Except Str Unit :=
  if key.length = 16 ∨ key.length = 24 ∨ key.length = 32 then .ok ()
  else .error "crypto/aes: invalid key size".data

/-- Bytewise exclusive or of two blocks. -/
def xorBytes (a b : List Byte) : List Byte := List.zipWith (fun x y => x ^^^ y) a b

/-- CBC encryption of `n` blocks (`cipher.NewCBCEncrypter(block, iv).CryptBlocks`):
each plaintext block is combined with the previous ciphertext block, the first one with
the IV, and encrypted. -/
def cbcEncrypt (enc : List Byte → List Byte) : Nat → List Byte → List Byte → List Byte
  | 0, _, _ => []
  | n + 1, prev, src =>
    let c := enc (xorBytes (src.take aesBlockSize) prev)
    c ++ cbcEncrypt enc n c (src.drop aesBlockSize)

/-- CBC decryption of `n` blocks (`cipher.NewCBCDecrypter(block, iv).CryptBlocks`). -/
def cbcDecrypt (dec : List Byte → List Byte) : Nat → List Byte → List Byte → List Byte
  | 0, _, _ => []
  | n + 1, prev, src =>
    xorBytes (dec (src.take aesBlockSize)) prev
      ++ cbcDecrypt dec n (src.take aesBlockSize) (src.drop aesBlockSize)

/-- How a call of this section ends when it does not return a value: with a Go `error`
(its message) or with a run-time panic. -/
inductive CryptoFailure where
  | error (message : Str)
  | panic (p : RuntimePanic)
deriving DecidableEq

/-- Go `aes.AESCBCV2`; the nil slice is the empty list. The logger is left out. -/
structure AESCBCV2 where
  padder : Padder
  key : List Byte
  iv : List Byte

/-- Go `dup(p)`: a copy of the bytes. -/
def dup (p : List Byte) : List Byte := p

/-- Go `aes.NewAESCBCConstantIV(ctx, log, key, iv, padder)`. `getKey` is the key
derivation of the package, which is declared outside the files at hand. The struct
literal of the source sets `key`, `padder` and `log`; the field `iv` keeps its zero
value. -/
def NewAESCBCConstantIV (getKey : Str → Except Str (List Byte)) (key : Str) (_iv : List Byte)
    (padder : Padder) : Except Str AESCBCV2 :=
  match getKey key with
  | .error err => .error ("crypto.aes.NewAESCBCV2ConstantIV: ".data ++ err)
  | .ok keyByte => .ok { key := keyByte, padder := padder, iv := [] }

/-- The message of Go `ErrIVLengthMismatch`. -/
def ErrIVLengthMismatch : Str := "IV lenght is not matching with block size".data

/-- Go `aes.NewAESCBCV2PKCS7ConstantIV(ctx, log, key, iv)`. -/
def NewAESCBCV2PKCS7ConstantIV (getKey : Str → Except Str (List Byte)) (key : Str)
    (iv : List Byte) : Except Str AESCBCV2 :=
  match getKey key with
  | .error err => .error ("crypto.aes.NewAESCBCV2PKCS7ConstantIV: ".data ++ err)
  | .ok keyByte =>
    match aesNewCipher keyByte with
    | .error err => .error ("crypto.aes.ChiperV2: ".data ++ err)
    | .ok _ =>
      if iv.length ≠ aesBlockSize then .error ("crypto.aes.ChiperV2: ".data ++ ErrIVLengthMismatch)
      else NewAESCBCConstantIV getKey key (dup iv) (NewPKCS7 aesBlockSize).toPadder

/-- Go `AESCBCV2.Encrypt(plainBlob)`. `cipher.NewCBCEncrypter` panics when the IV is not
one block long, `CryptBlocks` panics when the input is not a whole number of blocks. -/
def AESCBCV2.Encrypt (a : AESCBCV2) (aes : BlockCipher) (plainBlob : List Byte) :
    Except CryptoFailure (List Byte) :=
  match aesNewCipher a.key with
  | .error err => .error (.error ("AESCBCV2.Encrypt: ".data ++ err))
  | .ok _ =>
    match a.padder.Pad plainBlob with
    | .error p => .error (.panic p)
    | .ok paddedData =>
      if a.iv.length ≠ aesBlockSize then .error (.panic .ivLengthMismatch)
      else if paddedData.length % aesBlockSize ≠ 0 then .error (.panic .inputNotFullBlocks)
      else .ok (cbcEncrypt (aes.encrypt a.key) (paddedData.length / aesBlockSize) a.iv paddedData)

/-- Go `AESCBCV2.Decrypt(encryptedData)`. -/
def AESCBCV2.Decrypt (a : AESCBCV2) (aes : BlockCipher) (encryptedData : List Byte) :
    Except CryptoFailure (List Byte) :=
  match aesNewCipher a.key with
  | .error err => .error (.error ("AESCBCV2.Decrypt: ".data ++ err))
  | .ok _ =>
    if a.iv.length ≠ aesBlockSize then .error (.panic .ivLengthMismatch)
    else if encryptedData.length % aesBlockSize ≠ 0 then .error (.panic .inputNotFullBlocks)
    else
      match a.padder.UnPad
          (cbcDecrypt (aes.decrypt a.key) (encryptedData.length / aesBlockSize) a.iv
            encryptedData) with
      | .error p => .error (.panic p)
      | .ok plainData => .ok plainData

/-- A key derivation that takes the UTF-8 bytes of the key text. -/
def sampleGetKey (key : Str) : Except Str (List Byte) := .ok (utf8Encode key)

/-- A block function that leaves blocks as they are; it stands in for AES where only the
chaining matters. -/
def identityCipher : BlockCipher := { encrypt := fun _ b => b, decrypt := fun _ b => b }

/-- A key text of 16 bytes. -/
def sampleKey : Str := "0123456789abcdef".data

/-- An IV of one block, all bytes 1. -/
def sampleIV : List Byte := List.replicate 16 1


/-! ## Request logging (Go: `baseapp/utilities.go`, `PrintRequest`) -/

/-- Go `http.Header`, a `map[string][]string`: the values stored under a key, `none` when
the key is absent. -/
abbrev Header := Str → Option (List Str)

/-- The map assignment `h[key] = values` and, for `none`, `delete(h, key)`. -/
def Header.store (h : Header) (key : Str) (values : Option (List Str)) : Header :=
  fun k => if k = key then values else h k

/-- The bytes that may occur in a header field name (`validHeaderFieldByte` of Go's
`net/textproto`): letters, digits and some punctuation, given by character code. -/
def validHeaderFieldByte (c : Char) : Bool :=
  c.isAlphanum ||
    [33, 35, 36, 37, 38, 39, 42, 43, 45, 46, 94, 95, 96, 124, 126].contains c.toNat

/-- The letters of a canonical header key: upper case at the start and after a hyphen,
lower case elsewhere. -/
def canonicalLetters : Bool → List Char → List Char
  | _, [] => []
  | upper, c :: cs =>
    (if upper then c.toUpper else c.toLower) :: canonicalLetters (decide (c = '-')) cs

/-- Go `textproto.CanonicalMIMEHeaderKey` (a library outside the repository): a key with
an invalid byte is returned as it is. -/
def CanonicalMIMEHeaderKey (s : Str) : Str :=
  if s.all validHeaderFieldByte then canonicalLetters true s else s

/-- Go `Header.Values(key)`: the values under the canonical key, the nil slice when there
are none. -/
def Header.Values (canonical : Str → Str) (h : Header) (key : Str) : List Str :=
  (h (canonical key)).getD []

/-- Go `Header.Set(key, value)`. -/
def Header.Set (canonical : Str → Str) (h : Header) (key value : Str) : Header :=
  h.store (canonical key) (some [value])

/-- Go `Header.Del(key)`. -/
def Header.Del (canonical : Str → Str) (h : Header) (key : Str) : Header :=
  h.store (canonical key) none

/-- Go `Header.Add(key, value)`. -/
def Header.Add (canonical : Str → Str) (h : Header) (key value : Str) : Header :=
  h.store (canonical key) (some ((h (canonical key)).getD [] ++ [value]))

/-- The local `popList` of `PrintRequest`, a `map[string][]string`. -/
abbrev PopList := Str → Option (List Str)

/-- The text that stands for the values of an authentication header in the log. -/
def redacted : Str := "---redacted---".data

/-- The first loop of `PrintRequest` (lines 33 to 39): the values of every listed header
that has some are put aside and replaced. -/
def redactHeaders (canonical : Str → Str) : List Str → Header × PopList → Header × PopList
  | [], state => state
  | key :: rest, (h, popList) =>
    let val := Header.Values canonical h key
    if val.length ≠ 0 then
      redactHeaders canonical rest
        (Header.Set canonical h key redacted, fun k => if k = key then some val else popList k)
    else redactHeaders canonical rest (h, popList)

/-- The last loop of `PrintRequest` (lines 59 to 64), over the keys of `popList` in the
order in which `range` yields them. -/
def restoreHeaders (canonical : Str → Str) (popList : PopList) : List Str → Header → Header
  | [], h => h
  | key :: rest, h =>
    match popList key with
    | none => restoreHeaders canonical popList rest h
    | some value =>
      restoreHeaders canonical popList rest
        (value.foldl (fun h1 v => Header.Add canonical h1 key v) (Header.Del canonical h key))

/-- The parts of a `http.Request` that `PrintRequest` reads or writes. -/
structure Request where
  Header : Header
  ContentLength : Int
  Body : List Byte

/-- What `PrintRequest` leaves behind: the request, the header map as it was logged, and
the body that was read for the log, if any. -/
structure PrintRequestResult where
  request : Request
  loggedHeader : Header
  loggedBody : Option (List Byte)

/-- Go `BaseApp.PrintRequest(ctx, r)`. `canonical` is `textproto.CanonicalMIMEHeaderKey`,
`authHeaderKeyList` is `b.lConfig.AuthHeaderKeyList` and `rangeOrder` lists the keys of
`popList` in the order in which the last `range` loop visits them (Go leaves that order
open). The body is read and put back unchanged. -/
def PrintRequest (canonical : Str → Str) (authHeaderKeyList rangeOrder : List Str)
    (r : Request) : PrintRequestResult :=
  let state := redactHeaders canonical authHeaderKeyList (r.Header, fun _ => none)
  { request := { r with Header := restoreHeaders canonical state.2 rangeOrder state.1 },
    loggedHeader := state.1,
    loggedBody := if r.ContentLength > 0 then some r.Body else none }

/-- A request with an `Authorization` header and a content type. -/
def sampleRequest : Request :=
  { Header := fun k =>
      if k = "Authorization".data then some ["Bearer abc".data]
      else if k = "Content-Type".data then some ["application/json".data]
      else none,
    ContentLength := 0,
    Body := [] }


/-! # Theorems -/

theorem toNat_ofNat_lt (n : Nat) (h : n < 256) : (UInt8.ofNat n).toNat = n := by
  simp [UInt8.toNat, UInt8.ofNat, Fin.ofNat]
  omega

theorem char_range (c : Char) : c.toNat < 0xD800 ∨ (0xDFFF < c.toNat ∧ c.toNat < 0x110000) := by
  have h := c.valid
  simp only [UInt32.isValidChar, Nat.isValidChar] at h
  exact h

theorem scalar_toNat (c : Char) (lo : Nat) (h : lo ≤ c.toNat) : scalar? lo c.toNat = some c := by
  unfold scalar?
  rw [if_pos ⟨h, char_range c⟩, Char.ofNat_toNat]

theorem isCont_ofNat (n : Nat) (h : n < 64) : isCont (UInt8.ofNat (0x80 + n)) = true := by
  unfold isCont
  rw [toNat_ofNat_lt _ (by omega)]
  simp
  omega

theorem utf8DecodeChar_encodeChar (c : Char) (rest : List Byte) :
    utf8DecodeChar (utf8EncodeChar c ++ rest) = some (c, rest) := by
  have hr := char_range c
  generalize hn : c.toNat = n at hr
  have hs : ∀ lo, lo ≤ n → scalar? lo n = some c := by
    intro lo h; subst hn; exact scalar_toNat c lo h
  unfold utf8EncodeChar
  simp only [hn]
  by_cases h1 : n < 0x80
  · rw [if_pos h1]
    show utf8DecodeChar (UInt8.ofNat n :: rest) = _
    unfold utf8DecodeChar
    simp only
    rw [toNat_ofNat_lt _ (by omega), if_pos h1, ← hn, Char.ofNat_toNat]
  · rw [if_neg h1]
    by_cases h2 : n < 0x800
    · rw [if_pos h2]
      show utf8DecodeChar (UInt8.ofNat (0xC0 + n / 64) :: UInt8.ofNat (0x80 + n % 64) :: rest) = _
      unfold utf8DecodeChar
      simp only
      rw [isCont_ofNat _ (by omega)]
      rw [toNat_ofNat_lt (0xC0 + n / 64) (by omega), toNat_ofNat_lt (0x80 + n % 64) (by omega)]
      rw [if_neg (by omega), if_neg (by omega), if_pos (by omega)]
      simp only [Bool.and_self, if_true]
      have e : (0xC0 + n / 64 - 0xC0) * 64 + (0x80 + n % 64 - 0x80) = n := by omega
      rw [e, hs _ (by omega)]
      rfl
    · rw [if_neg h2]
      by_cases h3 : n < 0x10000
      · rw [if_pos h3]
        show utf8DecodeChar (UInt8.ofNat (0xE0 + n / 4096) :: UInt8.ofNat (0x80 + n / 64 % 64)
          :: UInt8.ofNat (0x80 + n % 64) :: rest) = _
        unfold utf8DecodeChar
        simp only
        rw [isCont_ofNat _ (by omega), isCont_ofNat _ (by omega)]
        rw [toNat_ofNat_lt (0xE0 + n / 4096) (by omega),
          toNat_ofNat_lt (0x80 + n / 64 % 64) (by omega), toNat_ofNat_lt (0x80 + n % 64) (by omega)]
        rw [if_neg (by omega), if_neg (by omega), if_neg (by omega), if_pos (by omega)]
        simp only [Bool.and_self, if_true]
        have e : (0xE0 + n / 4096 - 0xE0) * 4096 + (0x80 + n / 64 % 64 - 0x80) * 64
            + (0x80 + n % 64 - 0x80) = n := by omega
        rw [e, hs _ (by omega)]
        rfl
      · rw [if_neg h3]
        show utf8DecodeChar (UInt8.ofNat (0xF0 + n / 262144) :: UInt8.ofNat (0x80 + n / 4096 % 64)
          :: UInt8.ofNat (0x80 + n / 64 % 64) :: UInt8.ofNat (0x80 + n % 64) :: rest) = _
        unfold utf8DecodeChar
        simp only
        rw [isCont_ofNat _ (by omega), isCont_ofNat _ (by omega), isCont_ofNat _ (by omega)]
        rw [toNat_ofNat_lt (0xF0 + n / 262144) (by omega),
          toNat_ofNat_lt (0x80 + n / 4096 % 64) (by omega),
          toNat_ofNat_lt (0x80 + n / 64 % 64) (by omega), toNat_ofNat_lt (0x80 + n % 64) (by omega)]
        rw [if_neg (by omega), if_neg (by omega), if_neg (by omega), if_neg (by omega),
          if_pos (by omega)]
        simp only [Bool.and_self, if_true]
        have e : (0xF0 + n / 262144 - 0xF0) * 262144 + (0x80 + n / 4096 % 64 - 0x80) * 4096
            + (0x80 + n / 64 % 64 - 0x80) * 64 + (0x80 + n % 64 - 0x80) = n := by omega
        rw [e, hs _ (by omega)]
        rfl

theorem utf8Encode_length (s : Str) : s.length ≤ (utf8Encode s).length := by
  induction s with
  | nil => simp [utf8Encode]
  | cons c cs ih =>
    have : 1 ≤ (utf8EncodeChar c).length := by
      unfold utf8EncodeChar
      simp only
      split_ifs <;> simp
    simp only [utf8Encode, List.length_append, List.length_cons]
    omega

theorem utf8DecodeAux_encode (s : Str) : ∀ fuel, s.length ≤ fuel →
    utf8DecodeAux fuel (utf8Encode s) = some s := by
  induction s with
  | nil => intro fuel _; cases fuel <;> simp [utf8Encode, utf8DecodeAux]
  | cons c cs ih =>
    intro fuel hf
    cases fuel with
    | zero => simp at hf
    | succ fuel =>
      have hne : ∃ b bs, utf8EncodeChar c ++ utf8Encode cs = b :: bs := by
        have : 1 ≤ (utf8EncodeChar c).length := by
          unfold utf8EncodeChar
          simp only
          split_ifs <;> simp
        cases h : utf8EncodeChar c with
        | nil => rw [h] at this; simp at this
        | cons b bs => exact ⟨b, bs ++ utf8Encode cs, rfl⟩
      obtain ⟨b, bs, hb⟩ := hne
      have hd := utf8DecodeChar_encodeChar c (utf8Encode cs)
      rw [hb] at hd
      simp only [utf8Encode, hb, utf8DecodeAux, hd]
      rw [ih fuel (by simpa using hf)]

theorem utf8Decode_encode (s : Str) : utf8Decode (utf8Encode s) = some s :=
  utf8DecodeAux_encode s _ (utf8Encode_length s)

/-! ## String literal round trip -/

theorem hexVal_hexDigit : ∀ n, n < 16 → hexVal (hexDigit n) = some n := by decide

theorem parseEscape_control (c : Char) (h : c.toNat < 0x20) (rest : List Char) :
    parseEscape ('u' :: '0' :: '0' :: hexDigit (c.toNat / 16) :: hexDigit (c.toNat % 16) :: rest)
      = some (c, rest) := by
  have h0 : hexVal '0' = some 0 := by decide
  have e1 := hexVal_hexDigit (c.toNat / 16) (by omega)
  have e2 := hexVal_hexDigit (c.toNat % 16) (by omega)
  have hu1 : ¬ ('u' = '"') := by decide
  have hu2 : ¬ ('u' = '\\') := by decide
  have hu3 : ¬ ('u' = '/') := by decide
  have hu4 : ¬ ('u' = 'b') := by decide
  have hu5 : ¬ ('u' = 'f') := by decide
  have hu6 : ¬ ('u' = 'n') := by decide
  have hu7 : ¬ ('u' = 'r') := by decide
  have hu8 : ¬ ('u' = 't') := by decide
  unfold parseEscape
  simp only [hu1, hu2, hu3, hu4, hu5, hu6, hu7, hu8, if_false, if_true, parseHex4, h0, e1, e2]
  have e : ((0 * 16 + 0) * 16 + c.toNat / 16) * 16 + c.toNat % 16 = c.toNat := by omega
  rw [e, if_pos (Or.inl (by omega)), Char.ofNat_toNat]

theorem parseEscape_quote (rest : List Char) : parseEscape ('"' :: rest) = some ('"', rest) := by
  unfold parseEscape
  simp only [if_true]

theorem parseEscape_backslash (rest : List Char) :
    parseEscape ('\\' :: rest) = some ('\\', rest) := by
  have hb : ¬ ('\\' = '"') := by decide
  unfold parseEscape
  simp only [hb, if_true, if_false]

theorem parseStrBody_escaped (fuel : Nat) (rest rest1 : List Char) (ch : Char)
    (h : parseEscape rest = some (ch, rest1)) :
    parseStrBody (fuel + 1) ('\\' :: rest)
      = match parseStrBody fuel rest1 with
        | none => none
        | some (s, r) => some (ch :: s, r) := by
  have hb : ¬ ('\\' = '"') := by decide
  simp only [parseStrBody, hb, if_true, if_false, h]

theorem parseStrBody_escapeStr (s : Str) (rest : List Char) : ∀ fuel, s.length < fuel →
    parseStrBody fuel (escapeStr s ++ '"' :: rest) = some (s, rest) := by
  induction s with
  | nil =>
    intro fuel hf
    cases fuel with
    | zero => simp at hf
    | succ fuel => simp [escapeStr, parseStrBody]
  | cons c cs ih =>
    intro fuel hf
    cases fuel with
    | zero => simp at hf
    | succ fuel =>
      have ih1 := ih fuel (by simpa using hf)
      simp only [escapeStr, List.append_assoc]
      by_cases h1 : c = '"'
      · have hc : escapeChar c = ['\\', '"'] := by unfold escapeChar; rw [if_pos h1]
        rw [hc, h1]
        simp only [List.cons_append, List.nil_append]
        rw [parseStrBody_escaped _ _ _ _ (parseEscape_quote _), ih1]
      · by_cases h2 : c = '\\'
        · have hc : escapeChar c = ['\\', '\\'] := by
            unfold escapeChar; rw [if_neg h1, if_pos h2]
          rw [hc, h2]
          simp only [List.cons_append, List.nil_append]
          rw [parseStrBody_escaped _ _ _ _ (parseEscape_backslash _), ih1]
        · by_cases h3 : c.toNat < 0x20
          · have hc : escapeChar c
                = ['\\', 'u', '0', '0', hexDigit (c.toNat / 16), hexDigit (c.toNat % 16)] := by
              unfold escapeChar; rw [if_neg h1, if_neg h2, if_pos h3]
            rw [hc]
            simp only [List.cons_append, List.nil_append]
            rw [parseStrBody_escaped _ _ _ _ (parseEscape_control c h3 _), ih1]
          · have hc : escapeChar c = [c] := by
              unfold escapeChar; rw [if_neg h1, if_neg h2, if_neg h3]
            rw [hc]
            show parseStrBody (fuel + 1) (c :: (escapeStr cs ++ '"' :: rest)) = _
            simp only [parseStrBody, h1, h2, h3, if_false, ih1]

theorem escapeStr_length (s : Str) : s.length ≤ (escapeStr s).length := by
  induction s with
  | nil => simp [escapeStr]
  | cons c cs ih =>
    have : 1 ≤ (escapeChar c).length := by
      unfold escapeChar
      split_ifs <;> simp
    simp only [escapeStr, List.length_append, List.length_cons]
    omega

/-- A rendered string literal is read back, whatever follows it. -/
theorem parseStrBody_renderStr (s : Str) (rest : List Char) :
    parseStrBody ((escapeStr s ++ '"' :: rest).length + 1) (escapeStr s ++ '"' :: rest)
      = some (s, rest) := by
  apply parseStrBody_escapeStr
  have := escapeStr_length s
  simp only [List.length_append, List.length_cons]
  omega


/-! ## JSON round trip -/

theorem numChar_facts (c : Char) (h : isNumChar c = true) :
    isWs c = false ∧ c ≠ '"' ∧ c ≠ '[' ∧ c ≠ '{' ∧ c ≠ 'n' ∧ c ≠ 't' ∧ c ≠ 'f'
      ∧ c ≠ ']' ∧ c ≠ '}' := by
  refine ⟨?_, ?_, ?_, ?_, ?_, ?_, ?_, ?_, ?_⟩
  · cases hw : isWs c with
    | false => rfl
    | true =>
      exfalso
      simp only [isWs, Bool.or_eq_true, decide_eq_true_eq] at hw
      rcases hw with ((hw | hw) | hw) | hw <;> (subst hw; revert h; decide)
  all_goals (intro hc; subst hc; revert h; decide)

theorem numberLit_ne_nil (l : List Char) (h : isNumberLit l = true) : l ≠ [] := by
  intro hl; subst hl; revert h; decide

theorem numberLit_all (l : List Char) (h : isNumberLit l = true) :
    l.all isNumChar = true := by
  unfold isNumberLit at h
  simp only [Bool.and_eq_true] at h
  exact h.1

theorem takeWhile_numLit (l rest : List Char) (hl : l.all isNumChar = true)
    (hr : noNumHead rest = true) :
    (l ++ rest).takeWhile isNumChar = l ∧ (l ++ rest).dropWhile isNumChar = rest := by
  induction l with
  | nil =>
    cases rest with
    | nil => simp
    | cons c r =>
      simp only [noNumHead, Bool.not_eq_true'] at hr
      simp [List.takeWhile, List.dropWhile, hr]
  | cons c cs ih =>
    simp only [List.all_cons, Bool.and_eq_true] at hl
    have ih1 := ih hl.2
    simp [List.takeWhile, List.dropWhile, hl.1, ih1.1, ih1.2]

theorem parseNum_eq (input tok rest : List Char) (h1 : input.takeWhile isNumChar = tok)
    (h2 : input.dropWhile isNumChar = rest) (hv : isNumberLit tok = true) :
    parseNum input = some (.num ⟨tok, hv⟩, rest) := by
  subst h1
  subst h2
  unfold parseNum
  rw [dif_pos hv]

theorem parseValue_num (n : NumLit) (fuel : Nat) (rest : List Char)
    (hr : noNumHead rest = true) :
    parseValue (fuel + 1) (n.text ++ rest) = some (.num n, rest) := by
  obtain ⟨text, valid⟩ := n
  have hall := numberLit_all text valid
  have hne := numberLit_ne_nil text valid
  have htd := takeWhile_numLit text rest hall hr
  have hp := parseNum_eq (text ++ rest) text rest htd.1 htd.2 valid
  cases text with
  | nil => exact absurd rfl hne
  | cons c cs =>
    simp only [List.all_cons, Bool.and_eq_true] at hall
    obtain ⟨hw, f1, f2, f3, f4, f5, f6, _, _⟩ := numChar_facts c hall.1
    simp only [List.cons_append] at hp ⊢
    simp only [parseValue, skipWs, hw, f1, f2, f3, f4, f5, f6, if_false, Bool.false_eq_true]
    exact hp

theorem parseValue_null (fuel : Nat) (rest : List Char) :
    parseValue (fuel + 1) ('n' :: 'u' :: 'l' :: 'l' :: rest) = some (.null, rest) := by
  simp +decide [parseValue, skipWs, isWs, expect]

theorem parseValue_true (fuel : Nat) (rest : List Char) :
    parseValue (fuel + 1) ('t' :: 'r' :: 'u' :: 'e' :: rest) = some (.bool true, rest) := by
  simp +decide [parseValue, skipWs, isWs, expect]

theorem parseValue_false (fuel : Nat) (rest : List Char) :
    parseValue (fuel + 1) ('f' :: 'a' :: 'l' :: 's' :: 'e' :: rest)
      = some (.bool false, rest) := by
  simp +decide [parseValue, skipWs, isWs, expect]

theorem parseValue_str (s : Str) (fuel : Nat) (rest : List Char) :
    parseValue (fuel + 1) ('"' :: (escapeStr s ++ '"' :: rest)) = some (.str s, rest) := by
  have h := parseStrBody_renderStr s rest
  have hq : isWs '"' = false := by decide
  simp only [parseValue, skipWs, hq, if_true, if_false, Bool.false_eq_true, h]

theorem render_head (j : Json) :
    ∃ c tl, render j = c :: tl ∧ isWs c = false ∧ c ≠ ']' ∧ c ≠ '}' := by
  cases j with
  | null => exact ⟨'n', _, rfl, by decide, by decide, by decide⟩
  | bool b =>
    cases b
    · exact ⟨'f', _, rfl, by decide, by decide, by decide⟩
    · exact ⟨'t', _, rfl, by decide, by decide, by decide⟩
  | num n =>
    obtain ⟨text, valid⟩ := n
    have hall := numberLit_all text valid
    have hne := numberLit_ne_nil text valid
    cases text with
    | nil => exact absurd rfl hne
    | cons c cs =>
      simp only [List.all_cons, Bool.and_eq_true] at hall
      obtain ⟨hw, _, _, _, _, _, _, g1, g2⟩ := numChar_facts c hall.1
      exact ⟨c, cs, by simp only [render], hw, g1, g2⟩
  | str s => exact ⟨'"', _, rfl, by decide, by decide, by decide⟩
  | arr xs => exact ⟨'[', _, rfl, by decide, by decide, by decide⟩
  | obj kvs => exact ⟨'{', _, rfl, by decide, by decide, by decide⟩

theorem parseValue_arr_nil (fuel : Nat) (rest : List Char) :
    parseValue (fuel + 1) ('[' :: ']' :: rest) = some (.arr [], rest) := by
  simp +decide [parseValue, skipWs, isWs]

theorem parseValue_obj_nil (fuel : Nat) (rest : List Char) :
    parseValue (fuel + 1) ('{' :: '}' :: rest) = some (.obj [], rest) := by
  simp +decide [parseValue, skipWs, isWs]

theorem parseValue_arr_cons (fuel : Nat) (input : List Char) (d : Char) (tl : List Char)
    (hi : input = d :: tl) (hw : isWs d = false) (hd : d ≠ ']') :
    parseValue (fuel + 1) ('[' :: input)
      = match parseElems fuel input with
        | none => none
        | some (xs, r1) => some (.arr xs, r1) := by
  subst hi
  have h1 : isWs '[' = false := by decide
  have h2 : ¬ ('[' = '"') := by decide
  simp only [parseValue, skipWs, h1, h2, hw, hd, if_true, if_false, Bool.false_eq_true]

theorem parseValue_obj_cons (fuel : Nat) (input : List Char) (d : Char) (tl : List Char)
    (hi : input = d :: tl) (hw : isWs d = false) (hd : d ≠ '}') :
    parseValue (fuel + 1) ('{' :: input)
      = match parseMembers fuel input with
        | none => none
        | some (kvs, r1) => some (.obj kvs, r1) := by
  subst hi
  have h1 : isWs '{' = false := by decide
  have h2 : ¬ ('{' = '"') := by decide
  have h3 : ¬ ('{' = '[') := by decide
  simp only [parseValue, skipWs, h1, h2, h3, hw, hd, if_true, if_false, Bool.false_eq_true]

theorem parseElems_last (fuel : Nat) (input rest : List Char) (v : Json)
    (h : parseValue fuel input = some (v, ']' :: rest)) :
    parseElems (fuel + 1) input = some ([v], rest) := by
  have h1 : isWs ']' = false := by decide
  have h2 : ¬ (']' = ',') := by decide
  simp only [parseElems, h, skipWs, h1, h2, if_true, if_false, Bool.false_eq_true]

theorem parseElems_more (fuel : Nat) (input rest : List Char) (v : Json)
    (h : parseValue fuel input = some (v, ',' :: rest)) :
    parseElems (fuel + 1) input
      = match parseElems fuel rest with
        | none => none
        | some (vs, r1) => some (v :: vs, r1) := by
  have h1 : isWs ',' = false := by decide
  simp only [parseElems, h, skipWs, h1, if_true, if_false, Bool.false_eq_true]

theorem parseMembers_last (fuel : Nat) (k : Str) (input rest : List Char) (v : Json)
    (h : parseValue fuel input = some (v, '}' :: rest)) :
    parseMembers (fuel + 1) ('"' :: (escapeStr k ++ '"' :: ':' :: input))
      = some ([(k, v)], rest) := by
  have h1 : isWs '}' = false := by decide
  have h2 : ¬ ('}' = ',') := by decide
  have h3 : isWs '"' = false := by decide
  have h4 : isWs ':' = false := by decide
  have hk := parseStrBody_renderStr k (':' :: input)
  simp only [parseMembers, h, skipWs, h1, h2, h3, h4, hk, if_true, if_false,
    Bool.false_eq_true]

theorem parseMembers_more (fuel : Nat) (k : Str) (input rest : List Char) (v : Json)
    (h : parseValue fuel input = some (v, ',' :: rest)) :
    parseMembers (fuel + 1) ('"' :: (escapeStr k ++ '"' :: ':' :: input))
      = match parseMembers fuel rest with
        | none => none
        | some (kvs, r1) => some ((k, v) :: kvs, r1) := by
  have h1 : isWs ',' = false := by decide
  have h3 : isWs '"' = false := by decide
  have h4 : isWs ':' = false := by decide
  have hk := parseStrBody_renderStr k (':' :: input)
  simp only [parseMembers, h, skipWs, h1, h3, h4, hk, if_true, if_false, Bool.false_eq_true]

mutual
theorem parseValue_render : (j : Json) → (fuel : Nat) → (rest : List Char) →
    j.size ≤ fuel → noNumHead rest = true → parseValue fuel (render j ++ rest) = some (j, rest)
  | .null, fuel, rest, hf, _ => by
    cases fuel with
    | zero => simp [Json.size] at hf
    | succ fuel => exact parseValue_null fuel rest
  | .bool true, fuel, rest, hf, _ => by
    cases fuel with
    | zero => simp [Json.size] at hf
    | succ fuel => exact parseValue_true fuel rest
  | .bool false, fuel, rest, hf, _ => by
    cases fuel with
    | zero => simp [Json.size] at hf
    | succ fuel => exact parseValue_false fuel rest
  | .num n, fuel, rest, hf, hr => by
    cases fuel with
    | zero => simp [Json.size] at hf
    | succ fuel => exact parseValue_num n fuel rest hr
  | .str s, fuel, rest, hf, _ => by
    cases fuel with
    | zero => simp [Json.size] at hf
    | succ fuel =>
      simp only [render, renderStr, List.cons_append, List.append_assoc, List.nil_append]
      exact parseValue_str s fuel rest
  | .arr [], fuel, rest, hf, _ => by
    cases fuel with
    | zero => simp [Json.size] at hf
    | succ fuel => exact parseValue_arr_nil fuel rest
  | .arr (x :: xs), fuel, rest, hf, _ => by
    cases fuel with
    | zero => simp [Json.size] at hf
    | succ fuel =>
      have ih := parseElems_render (x :: xs) (List.cons_ne_nil x xs) fuel rest
        (by simp only [Json.size] at hf; omega)
      obtain ⟨c, tl, hc, hw, hd, _⟩ := render_head x
      have hhead : ∃ tl1, renderElems (x :: xs) ++ ']' :: rest = c :: tl1 := by
        cases xs with
        | nil => exact ⟨_, by simp only [renderElems, hc, List.cons_append]; rfl⟩
        | cons y ys => exact ⟨_, by simp only [renderElems, hc, List.cons_append]; rfl⟩
      obtain ⟨tl1, htl1⟩ := hhead
      simp only [render, List.cons_append, List.append_assoc, List.nil_append]
      rw [parseValue_arr_cons fuel _ c tl1 htl1 hw hd, ih]
  | .obj [], fuel, rest, hf, _ => by
    cases fuel with
    | zero => simp [Json.size] at hf
    | succ fuel => exact parseValue_obj_nil fuel rest
  | .obj ((k, v) :: kvs), fuel, rest, hf, _ => by
    cases fuel with
    | zero => simp [Json.size] at hf
    | succ fuel =>
      have ih := parseMembers_render ((k, v) :: kvs) (List.cons_ne_nil _ kvs) fuel rest
        (by simp only [Json.size] at hf; omega)
      have hhead : ∃ tl1, renderMembers ((k, v) :: kvs) ++ '}' :: rest = '"' :: tl1 := by
        cases kvs with
        | nil => exact ⟨_, by simp only [renderMembers, renderStr, List.cons_append]; rfl⟩
        | cons y ys =>
          obtain ⟨k1, v1⟩ := y
          exact ⟨_, by simp only [renderMembers, renderStr, List.cons_append]; rfl⟩
      obtain ⟨tl1, htl1⟩ := hhead
      simp only [render, List.cons_append, List.append_assoc, List.nil_append]
      rw [parseValue_obj_cons fuel _ '"' tl1 htl1 (by decide) (by decide), ih]
theorem parseElems_render : (l : List Json) → l ≠ [] → (fuel : Nat) → (rest : List Char) →
    Json.sizeElems l ≤ fuel → parseElems fuel (renderElems l ++ ']' :: rest) = some (l, rest)
  | [], hne, _, _, _ => absurd rfl hne
  | [x], _, fuel, rest, hf => by
    cases fuel with
    | zero => simp [Json.sizeElems] at hf
    | succ fuel =>
      have ih := parseValue_render x fuel (']' :: rest)
        (by simp only [Json.sizeElems] at hf; omega) rfl
      simp only [renderElems]
      exact parseElems_last fuel _ rest x ih
  | x :: y :: ys, _, fuel, rest, hf => by
    cases fuel with
    | zero => simp [Json.sizeElems] at hf
    | succ fuel =>
      have hf1 : 1 + x.size + Json.sizeElems (y :: ys) ≤ fuel + 1 := by
        simpa only [Json.sizeElems] using hf
      have ih := parseValue_render x fuel (',' :: (renderElems (y :: ys) ++ ']' :: rest))
        (by omega) rfl
      have ih2 := parseElems_render (y :: ys) (List.cons_ne_nil y ys) fuel rest (by omega)
      simp only [renderElems, List.append_assoc, List.cons_append]
      rw [parseElems_more fuel _ _ x ih, ih2]
theorem parseMembers_render : (l : List (Str × Json)) → l ≠ [] → (fuel : Nat) →
    (rest : List Char) → Json.sizeMembers l ≤ fuel →
    parseMembers fuel (renderMembers l ++ '}' :: rest) = some (l, rest)
  | [], hne, _, _, _ => absurd rfl hne
  | [(k, v)], _, fuel, rest, hf => by
    cases fuel with
    | zero => simp [Json.sizeMembers] at hf
    | succ fuel =>
      have ih := parseValue_render v fuel ('}' :: rest)
        (by simp only [Json.sizeMembers] at hf; omega) rfl
      simp only [renderMembers, renderStr, List.append_assoc, List.cons_append,
        List.nil_append]
      exact parseMembers_last fuel k _ rest v ih
  | (k, v) :: y :: ys, _, fuel, rest, hf => by
    cases fuel with
    | zero => simp [Json.sizeMembers] at hf
    | succ fuel =>
      have hf1 : 1 + v.size + Json.sizeMembers (y :: ys) ≤ fuel + 1 := by
        simpa only [Json.sizeMembers] using hf
      have ih := parseValue_render v fuel (',' :: (renderMembers (y :: ys) ++ '}' :: rest))
        (by omega) rfl
      have ih2 := parseMembers_render (y :: ys) (List.cons_ne_nil y ys) fuel rest (by omega)
      simp only [renderMembers, renderStr, List.append_assoc, List.cons_append,
        List.nil_append]
      rw [parseMembers_more fuel k _ _ v ih, ih2]
end


mutual
theorem size_le_render : (j : Json) → j.size ≤ (render j).length
  | .null => by simp [Json.size, render]
  | .bool true => by simp [Json.size, render]
  | .bool false => by simp [Json.size, render]
  | .num n => by
    have hne := numberLit_ne_nil n.text n.valid
    cases h : n.text with
    | nil => exact absurd h hne
    | cons c cs => simp [Json.size, render, h]
  | .str s => by simp [Json.size, render, renderStr]
  | .arr xs => by
    have := sizeElems_le_render xs
    simp only [Json.size, render, List.length_cons, List.length_append, List.length_nil]
    omega
  | .obj kvs => by
    have := sizeMembers_le_render kvs
    simp only [Json.size, render, List.length_cons, List.length_append, List.length_nil]
    omega
theorem sizeElems_le_render : (l : List Json) → Json.sizeElems l ≤ (renderElems l).length + 1
  | [] => by simp [Json.sizeElems]
  | [x] => by
    have := size_le_render x
    simp only [Json.sizeElems, renderElems]
    omega
  | x :: y :: ys => by
    have := size_le_render x
    have := sizeElems_le_render (y :: ys)
    simp only [Json.sizeElems, renderElems, List.length_cons, List.length_append] at *
    omega
theorem sizeMembers_le_render : (l : List (Str × Json)) →
    Json.sizeMembers l ≤ (renderMembers l).length + 1
  | [] => by simp [Json.sizeMembers]
  | [(k, v)] => by
    have := size_le_render v
    simp only [Json.sizeMembers, renderMembers, List.length_cons, List.length_append]
    omega
  | (k, v) :: y :: ys => by
    have := size_le_render v
    have := sizeMembers_le_render (y :: ys)
    simp only [Json.sizeMembers, renderMembers, List.length_cons, List.length_append] at *
    omega
end

/-- Parsing the rendering of a JSON value gives the value back. -/
theorem parseJson_render (j : Json) : parseJson (render j) = some j := by
  have h := parseValue_render j ((render j).length + 1) [] (by have := size_le_render j; omega) rfl
  rw [List.append_nil] at h
  simp only [parseJson, h, skipWs, if_true]

/-! ## Envelope -/

theorem ofMembers_foldl (l : List (Str × Json)) : ∀ (ev : Str) (acc : List (Str × Json)),
    (∀ kv ∈ l, ∀ a ∈ acc, a.1 ≠ kv.1) → (l.map Prod.fst).Nodup →
    l.foldl (fun e kv => Envelope.AddPayload e kv.1 kv.2) { event := ev, payload := acc }
      = { event := ev, payload := acc ++ l } := by
  induction l with
  | nil => intro ev acc _ _; simp
  | cons kv rest ih =>
    intro ev acc hd hn
    simp only [List.map_cons, List.nodup_cons] at hn
    have hfilter : acc.filter (fun a => decide (a.1 ≠ kv.1)) = acc := by
      apply List.filter_eq_self.mpr
      intro a ha
      simpa using hd kv (List.mem_cons_self _ _) a ha
    have step : Envelope.AddPayload { event := ev, payload := acc } kv.1 kv.2
        = { event := ev, payload := acc ++ [(kv.1, kv.2)] } := by
      simp only [Envelope.AddPayload, hfilter]
    rw [List.foldl_cons, step, ih ev (acc ++ [(kv.1, kv.2)])]
    · simp
    · intro kv2 hkv2 a ha
      rcases List.mem_append.mp ha with ha | ha
      · exact hd kv2 (List.mem_cons_of_mem _ hkv2) a ha
      · simp only [List.mem_singleton] at ha
        subst ha
        intro heq
        apply hn.1
        simp only [List.mem_map]
        exact ⟨kv2, hkv2, heq.symm⟩
    · exact hn.2

theorem ofMembers_wellFormed (e : Envelope) (h : (e.payload.map Prod.fst).Nodup) :
    Envelope.ofMembers e.event e.payload = e := by
  unfold Envelope.ofMembers
  rw [ofMembers_foldl e.payload e.event [] (by simp) h]
  simp

/-- C1. Round trip: for every well-formed Envelope (non-empty event, payload mapping with
unique keys), `LoadMessage` applied to its serialization succeeds and returns an equal
Envelope. -/
theorem LoadMessage_Serialize (e : Envelope) (h : e.WellFormed) :
    LoadMessage e.Serialize = .ok e := by
  unfold LoadMessage Envelope.Serialize
  rw [utf8Decode_encode]
  simp only
  rw [parseJson_render]
  have h1 : field? ['e', 'v', 'e', 'n', 't'] [(['e', 'v', 'e', 'n', 't'], Json.str e.event),
      (['p', 'a', 'y', 'l', 'o', 'a', 'd'], Json.obj e.payload)] = some (.str e.event) := by
    simp +decide [field?]
  have h2 : field? ['p', 'a', 'y', 'l', 'o', 'a', 'd']
      [(['e', 'v', 'e', 'n', 't'], Json.str e.event),
      (['p', 'a', 'y', 'l', 'o', 'a', 'd'], Json.obj e.payload)] = some (.obj e.payload) := by
    simp +decide [field?]
  simp only [Envelope.toJson, h1, h2, h.1, if_false]
  rw [ofMembers_wellFormed e h.2]


/-- C1 at the Envelope of the SNS test. -/
theorem LoadMessage_Serialize_witness :
    snsTestEnvelope.WellFormed ∧ LoadMessage snsTestEnvelope.Serialize = .ok snsTestEnvelope :=
  ⟨by decide, LoadMessage_Serialize snsTestEnvelope (by decide)⟩

/-- C2. Overwrite: after `AddPayload(k, v)` followed by `AddPayload(k, v2)` the payload
mapping has exactly one entry under `k`, holding `v2`; the entries under every other key
and the event are unchanged. -/
theorem AddPayload_overwrite (e : Envelope) (k : Str) (v v2 : Json) :
    ((e.AddPayload k v).AddPayload k v2).entries k = [(k, v2)] ∧
    (∀ k2, k2 ≠ k → ((e.AddPayload k v).AddPayload k v2).entries k2 = e.entries k2) ∧
    ((e.AddPayload k v).AddPayload k v2).event = e.event := by
  refine ⟨?_, ?_, rfl⟩
  · simp [Envelope.AddPayload, Envelope.entries, List.filter_filter]
  · intro k2 hk
    have hk2 : ¬ (k = k2) := fun h => hk h.symm
    have hf : ∀ l : List (Str × Json),
        (l.filter (fun kv => decide (kv.1 ≠ k))).filter (fun kv => decide (kv.1 = k2))
          = l.filter (fun kv => decide (kv.1 = k2)) := by
      intro l
      rw [List.filter_filter]
      apply List.filter_congr
      intro kv _
      by_cases h : kv.1 = k2
      · simp [h, hk]
      · simp [h]
    simp only [Envelope.AddPayload, Envelope.entries, List.filter_append, hf]
    simp [List.filter_cons, hk2]

/-- C2 at a concrete Envelope: overwriting `payment` in the SNS test Envelope leaves the
entry of `bank` as it was. -/
theorem AddPayload_overwrite_witness :
    "bank".data ≠ "payment".data ∧
    ((snsTestEnvelope.AddPayload "payment".data .null).AddPayload "payment".data
        (.bool true)).entries "bank".data = snsTestEnvelope.entries "bank".data :=
  ⟨by decide,
   (AddPayload_overwrite snsTestEnvelope "payment".data .null (.bool true)).2.1
     "bank".data (by decide)⟩

theorem entries_foldl (k : Str) (l : List (Str × Json)) :
    ∀ (ev : Str) (acc : List (Str × Json)),
    (l.foldl (fun e kv => Envelope.AddPayload e kv.1 kv.2)
        { event := ev, payload := acc }).entries k
      = match field? k l with
        | some v => [(k, v)]
        | none => acc.filter (fun kv => decide (kv.1 = k)) := by
  induction l with
  | nil => intro ev acc; simp [field?, Envelope.entries]
  | cons kv rest ih =>
    intro ev acc
    have step : Envelope.AddPayload { event := ev, payload := acc } kv.1 kv.2
        = { event := ev,
            payload := acc.filter (fun a => decide (a.1 ≠ kv.1)) ++ [(kv.1, kv.2)] } := rfl
    rw [List.foldl_cons, step, ih]
    obtain ⟨k1, v1⟩ := kv
    simp only [field?]
    cases hrest : field? k rest with
    | some w => rfl
    | none =>
      by_cases hk : k1 = k
      · subst hk
        simp [List.filter_filter]
      · simp only [hk, if_false, List.filter_append, List.filter_filter, List.filter_cons,
          List.filter_nil, decide_eq_true_eq, List.append_nil]
        apply List.filter_congr
        intro a _
        by_cases h : a.1 = k
        · simp [h]; intro h1; exact hk (h1 ▸ h ▸ rfl)
        · simp [h]

theorem event_foldl (l : List (Str × Json)) : ∀ (e : Envelope),
    (l.foldl (fun e kv => Envelope.AddPayload e kv.1 kv.2) e).event = e.event := by
  induction l with
  | nil => intro e; rfl
  | cons kv rest ih => intro e; rw [List.foldl_cons, ih]; rfl

theorem LoadMessage_of_encodes (b : List Byte) (ev : Str) (ps : List (Str × Json))
    (h : EncodesWire b ev ps) :
    LoadMessage b = if ev = [] then .error .DecodeError else .ok (Envelope.ofMembers ev ps) := by
  obtain ⟨text, doc, h1, h2, h3, h4⟩ := h
  simp only [LoadMessage, h1, h2, h3, h4]

theorem LoadMessage_cases (b : List Byte) :
    LoadMessage b = .error .DecodeError ∨
      ∃ ev ps, EncodesWire b ev ps ∧ ev ≠ [] ∧ LoadMessage b = .ok (Envelope.ofMembers ev ps) := by
  cases h1 : utf8Decode b with
  | none => left; simp only [LoadMessage, h1]
  | some text =>
    cases h2 : parseJson text with
    | none => left; simp only [LoadMessage, h1, h2]
    | some j =>
      cases j with
      | obj doc =>
        cases h3 : field? ['e', 'v', 'e', 'n', 't'] doc with
        | none => left; simp only [LoadMessage, h1, h2, h3]
        | some je =>
          cases h4 : field? ['p', 'a', 'y', 'l', 'o', 'a', 'd'] doc with
          | none => left; cases je <;> simp only [LoadMessage, h1, h2, h3, h4]
          | some jp =>
            cases je with
            | str ev =>
              cases jp with
              | obj ps =>
                by_cases hev : ev = []
                · left; simp only [LoadMessage, h1, h2, h3, h4, hev, if_true]
                · right
                  refine ⟨ev, ps, ⟨text, doc, h1, h2, h3, h4⟩, hev, ?_⟩
                  simp only [LoadMessage, h1, h2, h3, h4, hev, if_false]
              | _ => left; simp only [LoadMessage, h1, h2, h3, h4]
            | _ => left; simp only [LoadMessage, h1, h2, h3, h4]
      | _ => left; simp only [LoadMessage, h1, h2]

/-- C3. `LoadMessage` fails with `DecodeError` exactly when the bytes are not a valid wire
encoding (UTF-8 text of a JSON object with a string `event` and an object `payload`) or
the event is empty; there is no other failure; and on a valid encoding with a non-empty
event it returns the Envelope the bytes encode: that event, and under every key the
(last) member of the payload object with that name. -/
theorem LoadMessage_spec (b : List Byte) :
    (LoadMessage b = .error .DecodeError ↔ ¬ ∃ ev ps, EncodesWire b ev ps ∧ ev ≠ []) ∧
    (LoadMessage b = .error .DecodeError ∨ ∃ e, LoadMessage b = .ok e) ∧
    (∀ ev ps, EncodesWire b ev ps → ev ≠ [] →
      ∃ e, LoadMessage b = .ok e ∧ e.event = ev ∧
        ∀ k, e.entries k = match field? k ps with
                           | some v => [(k, v)]
                           | none => []) := by
  refine ⟨⟨?_, ?_⟩, ?_, ?_⟩
  · rintro herr ⟨ev, ps, henc, hev⟩
    rw [LoadMessage_of_encodes b ev ps henc, if_neg hev] at herr
    cases herr
  · intro hno
    rcases LoadMessage_cases b with h | ⟨ev, ps, henc, hev, _⟩
    · exact h
    · exact absurd ⟨ev, ps, henc, hev⟩ hno
  · rcases LoadMessage_cases b with h | ⟨ev, ps, _, _, h⟩
    · exact Or.inl h
    · exact Or.inr ⟨_, h⟩
  · intro ev ps henc hev
    refine ⟨Envelope.ofMembers ev ps, ?_, ?_, ?_⟩
    · rw [LoadMessage_of_encodes b ev ps henc, if_neg hev]
    · exact event_foldl ps _
    · intro k
      have := entries_foldl k ps ev []
      simpa [Envelope.ofMembers] using this

/-- C3 at concrete bytes: the serialization of the SNS test Envelope is a valid wire
encoding and is decoded to that Envelope. -/
theorem LoadMessage_spec_witness :
    ∃ e, LoadMessage snsTestEnvelope.Serialize = .ok e ∧ e.event = snsTestEnvelope.event ∧
      ∀ k, e.entries k = match field? k snsTestEnvelope.payload with
                         | some v => [(k, v)]
                         | none => [] :=
  (LoadMessage_spec snsTestEnvelope.Serialize).2.2 snsTestEnvelope.event snsTestEnvelope.payload
    ⟨render snsTestEnvelope.toJson, _, utf8Decode_encode _, parseJson_render _, rfl, rfl⟩
    (by decide)

/-- Bytes that are not UTF-8, text that is not JSON, a document without payload and a
document with an empty event are rejected with `DecodeError`. -/
theorem LoadMessage_rejects :
    LoadMessage [0xff] = .error .DecodeError ∧
    LoadMessage (utf8Encode "\x7b\"event\":".data) = .error .DecodeError ∧
    LoadMessage (utf8Encode "\x7b\"event\":\"a\"\x7d".data) = .error .DecodeError ∧
    LoadMessage (utf8Encode "\x7b\"event\":\"\",\"payload\":\x7b\x7d\x7d".data) = .error .DecodeError ∧
    LoadMessage (utf8Encode " \x7b\"payload\" : \x7b\"k\":[1.5e3,null]\x7d, \"event\":\"a\"\x7d ".data)
      = .ok { event := ['a'],
              payload := [(['k'], .arr [.num ⟨"1.5e3".data, rfl⟩, .null])] } :=
  ⟨rfl, rfl, rfl, rfl, rfl⟩

/-! ## Poll loop -/

/-- The actions of iterations `i .. i+n-1`, none of which sees the context done. -/
theorem Poll_run (ctxDone : Nat → Bool) (client : Nat → PollEvent) :
    ∀ (n i fuel : Nat), (∀ j, j < n → ctxDone (i + j) = false) → ctxDone (i + n) = true →
      n < fuel →
      ∃ pre, Poll ctxDone client fuel i = (pre ++ [.checkCtx true, .close], true) ∧
        PollAction.close ∉ pre ∧ PollAction.checkCtx true ∉ pre ∧
        pushed pre = ((List.range n).map (fun j => client (i + j))).filterMap PollEvent.message? ∧
        logged pre = ((List.range n).map (fun j => client (i + j))).filterMap PollEvent.error? ∧
        (pre.filter (fun a => decide (a = .checkCtx false))).length = n := by
  intro n
  induction n with
  | zero =>
    intro i fuel _ hd hf
    cases fuel with
    | zero => omega
    | succ fuel =>
      refine ⟨[], ?_, by simp, by simp, by simp [pushed], by simp [logged], by simp⟩
      simp only [Nat.add_zero] at hd
      simp [Poll, hd]
  | succ n ih =>
    intro i fuel hb hd hf
    cases fuel with
    | zero => omega
    | succ fuel =>
      have h0 : ctxDone i = false := by simpa using hb 0 (by omega)
      obtain ⟨pre, hp, hc, hk, hpush, hlog, hcnt⟩ := ih (i + 1) fuel
        (by intro j hj; have := hb (j + 1) (by omega); rwa [show i + 1 + j = i + (j + 1) by omega])
        (by rwa [show i + 1 + n = i + (n + 1) by omega]) (by omega)
      refine ⟨(PollAction.checkCtx false :: pollStep (client i)) ++ pre, ?_, ?_, ?_, ?_, ?_, ?_⟩
      · simp only [Poll, h0, hp, Bool.false_eq_true, if_false, List.append_assoc]
      · cases hev : client i <;> simp [pollStep, hc]
      · cases hev : client i <;> simp [pollStep, hk]
      · rw [List.range_succ_eq_map]
        have e : (List.map (fun j => client (i + j)) (List.map Nat.succ (List.range n)))
            = List.map (fun j => client (i + 1 + j)) (List.range n) := by
          rw [List.map_map]
          apply List.map_congr_left
          intro j _
          simp only [Function.comp, Nat.succ_eq_add_one]
          rw [show i + (j + 1) = i + 1 + j by omega]
        simp only [List.map_cons, e, Nat.add_zero]
        cases hev : client i <;>
          simp [pollStep, pushed, PollEvent.message?, List.filterMap_cons, List.filterMap_append]
            <;> simpa [pushed] using hpush
      · rw [List.range_succ_eq_map]
        have e : (List.map (fun j => client (i + j)) (List.map Nat.succ (List.range n)))
            = List.map (fun j => client (i + 1 + j)) (List.range n) := by
          rw [List.map_map]
          apply List.map_congr_left
          intro j _
          simp only [Function.comp, Nat.succ_eq_add_one]
          rw [show i + (j + 1) = i + 1 + j by omega]
        simp only [List.map_cons, e, Nat.add_zero]
        cases hev : client i <;>
          simp [pollStep, logged, PollEvent.error?, List.filterMap_cons, List.filterMap_append]
            <;> simpa [logged] using hlog
      · cases hev : client i <;> simp [pollStep, List.filter_cons, hcnt]


theorem Poll_running (ctxDone : Nat → Bool) (client : Nat → PollEvent) :
    ∀ (fuel i : Nat), (Poll ctxDone client fuel i).2 = false →
      PollAction.close ∉ (Poll ctxDone client fuel i).1 := by
  intro fuel
  induction fuel with
  | zero => intro i _; simp [Poll]
  | succ fuel ih =>
    intro i h
    by_cases hc : ctxDone i = true
    · simp [Poll, hc] at h
    · simp only [Poll, hc, if_false] at h ⊢
      have := ih (i + 1) h
      cases hev : client i <;> simp [pollStep, this]

theorem beforeClose_append (pre : List PollAction) (h : PollAction.close ∉ pre) :
    beforeClose (pre ++ [.checkCtx true, .close]) = pre ++ [.checkCtx true] := by
  induction pre with
  | nil => simp +decide [beforeClose, List.takeWhile]
  | cons a rest ih =>
    simp only [List.mem_cons, not_or] at h
    have ha : a ≠ PollAction.close := fun e => h.1 e.symm
    have ih1 := ih h.2
    simp only [beforeClose] at ih1 ⊢
    simp only [List.cons_append, List.takeWhile_cons, ha, ne_eq, not_false_eq_true,
      decide_True, if_true, ih1]

/-- C4. No loss, no duplication: when the cancellation signal is first observed at
iteration `d`, `Poll` returns, the messages pushed to the output stream before it is
closed are exactly the messages that the client surfaced in iterations `0 .. d-1`, in the
same order; so if those hold `N` messages with event `x`, exactly `N` messages with event
`x` are pushed. The poll errors in between are logged, add no message, and do not end the
loop: all `d` iterations run. -/
theorem Poll_no_loss_no_duplication (ctxDone : Nat → Bool) (client : Nat → PollEvent)
    (d fuel : Nat) (hb : ∀ i, i < d → ctxDone i = false) (hd : ctxDone d = true)
    (hf : d < fuel) (x : Str) (N : Nat)
    (hN : ((surfaced client d).filter (hasEvent x)).length = N) :
    (Poll ctxDone client fuel 0).2 = true ∧
    pushed (beforeClose (Poll ctxDone client fuel 0).1) = surfaced client d ∧
    ((pushed (beforeClose (Poll ctxDone client fuel 0).1)).filter (hasEvent x)).length = N ∧
    logged (Poll ctxDone client fuel 0).1 = surfacedErrors client d ∧
    ((Poll ctxDone client fuel 0).1.filter (fun a => decide (a = .checkCtx false))).length = d := by
  obtain ⟨pre, hp, hc, _, hpush, hlog, hcnt⟩ := Poll_run ctxDone client d 0 fuel
    (by intro j hj; simpa using hb j hj) (by simpa using hd) hf
  have hs : pushed (beforeClose (Poll ctxDone client fuel 0).1) = surfaced client d := by
    rw [hp, beforeClose_append pre hc]
    simp only [surfaced]
    simp only [Nat.zero_add] at hpush
    rw [← hpush]
    simp [pushed, List.filterMap_append]
  refine ⟨by rw [hp], hs, by rw [hs]; exact hN, ?_, ?_⟩
  · rw [hp]
    simp only [surfacedErrors]
    simp only [Nat.zero_add] at hlog
    rw [← hlog]
    simp [logged, List.filterMap_append]
  · rw [hp]
    simp only [List.filter_append, List.length_append, hcnt]
    simp +decide [List.filter_cons]

/-- C4 at a concrete run: two messages with event `X` and a poll error between them,
cancellation observed at iteration 3: exactly two such messages are pushed. -/
theorem Poll_no_loss_no_duplication_witness :
    ((pushed (beforeClose (Poll ctxDoneAt3 sampleClient 10 0).1)).filter
      (hasEvent ['X'])).length = 2 :=
  (Poll_no_loss_no_duplication ctxDoneAt3 sampleClient 3 10 (by decide) (by decide)
    (by decide) ['X'] 2 (by rfl)).2.2.1

/-- C5. Single close: while `Poll` has not returned the output stream is not closed; once
the cancellation signal is observable at some iteration `d`, `Poll` returns within `d + 1`
iterations, and its actions then end with the observation of the cancellation followed by
the close: the stream is closed exactly once, nothing is pushed after the close, and no
close and no observed cancellation precede that point. -/
theorem Poll_single_close (ctxDone : Nat → Bool) (client : Nat → PollEvent) :
    (∀ fuel, (Poll ctxDone client fuel 0).2 = false →
      PollAction.close ∉ (Poll ctxDone client fuel 0).1) ∧
    (∀ d fuel, ctxDone d = true → d < fuel →
      ∃ pre, Poll ctxDone client fuel 0 = (pre ++ [.checkCtx true, .close], true) ∧
        PollAction.close ∉ pre ∧ PollAction.checkCtx true ∉ pre ∧
        closeCount (Poll ctxDone client fuel 0).1 = 1) := by
  refine ⟨fun fuel h => Poll_running ctxDone client fuel 0 h, ?_⟩
  intro d fuel hd hf
  have hex : ∃ n, ctxDone n = true := ⟨d, hd⟩
  have hmin : ∀ j, j < Nat.find hex → ctxDone j = false := by
    intro j hj
    have := Nat.find_min hex hj
    simpa using this
  have hle : Nat.find hex ≤ d := Nat.find_min' hex hd
  obtain ⟨pre, hp, hc, hk, _, _, _⟩ := Poll_run ctxDone client (Nat.find hex) 0 fuel
    (by intro j hj; simpa using hmin j hj) (by simpa using Nat.find_spec hex) (by omega)
  refine ⟨pre, hp, hc, hk, ?_⟩
  rw [hp]
  simp only [closeCount, List.count_append, List.count_eq_zero_of_not_mem hc]
  decide

/-- C5 at a concrete run: with cancellation observed at iteration 3 the stream is closed
exactly once. -/
theorem Poll_single_close_witness :
    ctxDoneAt3 3 = true ∧ 3 < 10 ∧ closeCount (Poll ctxDoneAt3 sampleClient 10 0).1 = 1 :=
  ⟨by decide, by decide,
   by
    obtain ⟨_, _, _, _, h⟩ := (Poll_single_close ctxDoneAt3 sampleClient).2 3 10 (by decide)
      (by decide)
    exact h⟩

/-- C6. Proxy failure mapping: whatever HTTP response the proxy returns, `Produce` succeeds
when the status is 2xx and otherwise returns a `DeliveryError` carrying that status code
and the response body; in particular for the statuses 400 and 500. -/
theorem HTTPProducer_Produce_status (p : HTTPProducer) (proxy : ProxyRequest → HTTPResponse)
    (key : Str) (e : Envelope) (resp : HTTPResponse)
    (hresp : proxy { topic := p.topic, key := key, value := e.Serialize } = resp) :
    ((200 ≤ resp.status ∧ resp.status < 300) → p.Produce proxy key e = .ok ()) ∧
    (¬ (200 ≤ resp.status ∧ resp.status < 300) →
      p.Produce proxy key e = .error (.DeliveryError resp.status resp.body)) ∧
    (resp.status = 400 ∨ resp.status = 500 →
      p.Produce proxy key e = .error (.DeliveryError resp.status resp.body)) := by
  subst hresp
  refine ⟨?_, ?_, ?_⟩
  · intro h
    simp only [HTTPProducer.Produce, h, and_self, if_true]
  · intro h
    simp only [HTTPProducer.Produce, h, if_false]
  · intro h
    have h2 : ¬ (200 ≤ (proxy { topic := p.topic, key := key, value := e.Serialize }).status ∧
        (proxy { topic := p.topic, key := key, value := e.Serialize }).status < 300) := by
      omega
    simp only [HTTPProducer.Produce, h2, if_false]

/-- C6 at a proxy that answers 500: `Produce` returns the `DeliveryError` with status 500
and the body of the response. -/
theorem HTTPProducer_Produce_status_witness :
    HTTPProducer.Produce { topic := "t".data } (fun _ => { status := 500, body := "down".data })
        "0".data snsTestEnvelope
      = .error (.DeliveryError 500 "down".data) :=
  (HTTPProducer_Produce_status { topic := "t".data }
    (fun _ => { status := 500, body := "down".data }) "0".data snsTestEnvelope
    { status := 500, body := "down".data } rfl).2.2 (Or.inr rfl)

/-! ## Secret manager cache -/

/-- C7. `GetSecret` with a simple cache. When the cache holds an entry for the identifier
that expires after the current time, no remote retrieval is made, the cache is left as it
is and the result is the decoding of the cached secret string. Otherwise the secret is
retrieved remotely, exactly once; on success it is stored under that identifier, with
expiry exactly 15 minutes after the time of storing, every other identifier keeping its
entry, and the result is the decoding of the retrieved secret string; on failure an error
is returned and the cache is unchanged. -/
theorem GetSecret_cache {Data : Type} (sdk : Str → Except Str GetSecretValueOutput)
    (unmarshal : Str → Except Str Data) (cache : SecretCache) (now nowStore : Time)
    (secretArn : Str) :
    (∀ entry, cache secretArn = some entry → now < entry.expireTime →
      (GetSecret sdk unmarshal cache now nowStore secretArn).remoteCalls = [] ∧
      (GetSecret sdk unmarshal cache now nowStore secretArn).cache = cache ∧
      (GetSecret sdk unmarshal cache now nowStore secretArn).result
        = decodeSecret unmarshal entry.data ∧
      (∀ s, entry.data.SecretString = some s →
        (GetSecret sdk unmarshal cache now nowStore secretArn).result
          = match unmarshal s with
            | .error err => .error (.error ("SecretManager.GetSecret: ".data ++ err))
            | .ok data => .ok data)) ∧
    ((¬ ∃ entry, cache secretArn = some entry ∧ now < entry.expireTime) →
      (GetSecret sdk unmarshal cache now nowStore secretArn).remoteCalls = [secretArn] ∧
      (∀ res, sdk secretArn = .ok res →
        (GetSecret sdk unmarshal cache now nowStore secretArn).cache secretArn
          = some { data := res, expireTime := nowStore + 15 * Minute } ∧
        (∀ other, other ≠ secretArn →
          (GetSecret sdk unmarshal cache now nowStore secretArn).cache other = cache other) ∧
        (GetSecret sdk unmarshal cache now nowStore secretArn).result
          = decodeSecret unmarshal res) ∧
      (∀ err, sdk secretArn = .error err →
        (∃ message, (GetSecret sdk unmarshal cache now nowStore secretArn).result
          = .error (.error message)) ∧
        (GetSecret sdk unmarshal cache now nowStore secretArn).cache = cache)) := by
  constructor
  · intro entry hc hlt
    have hg : GetSecret sdk unmarshal cache now nowStore secretArn
        = { result := decodeSecret unmarshal entry.data, cache := cache, remoteCalls := [] } := by
      simp only [GetSecret, hc, hlt, Option.getD_some, Option.isSome_some, decide_True,
        Bool.and_self, if_true]
    rw [hg]
    refine ⟨rfl, rfl, rfl, ?_⟩
    intro s hs
    simp only [decodeSecret, hs]
  · intro hmiss
    have hmul : nowStore + Minute * 15 = nowStore + 15 * Minute := by rw [Int.mul_comm]
    have key : GetSecret sdk unmarshal cache now nowStore secretArn
        = match GetSecretValueWithContext sdk secretArn with
          | .error err =>
            { result := .error (.error ("SecretManager.GetSecret: ".data ++ err)),
              cache := cache, remoteCalls := [secretArn] }
          | .ok res =>
            { result := decodeSecret unmarshal res,
              cache := cache.set secretArn { expireTime := nowStore + Minute * 15, data := res },
              remoteCalls := [secretArn] } := by
      cases hc : cache secretArn with
      | none =>
        simp only [GetSecret, hc, Option.isSome_none, Bool.false_and, Bool.false_eq_true,
          if_false]
      | some entry =>
        have hlt : ¬ now < entry.expireTime := fun h => hmiss ⟨entry, hc, h⟩
        simp only [GetSecret, hc, hlt, Option.getD_some, Option.isSome_some, decide_False,
          Bool.and_false, Bool.false_eq_true, if_false]
    rw [key]
    refine ⟨?_, ?_, ?_⟩
    · cases hs : sdk secretArn <;> simp only [GetSecretValueWithContext, hs]
    · intro res hs
      have hv : GetSecretValueWithContext sdk secretArn = .ok res := by
        simp only [GetSecretValueWithContext, hs]
      rw [hv]
      refine ⟨?_, ?_, rfl⟩
      · simp only [SecretCache.set, if_true, hmul]
      · intro other ho
        simp only [SecretCache.set, ho, if_false]
    · intro err hs
      have hv : GetSecretValueWithContext sdk secretArn
          = .error ("SecretManager.GetSecretNonCache: ".data ++ err) := by
        simp only [GetSecretValueWithContext, hs]
      rw [hv]
      exact ⟨⟨_, rfl⟩, rfl⟩

/-- C7 at a cache that holds `arn:1` until time 100, read at time 50: the secret comes
from the cache, without a remote retrieval. -/
theorem GetSecret_cache_witness :
    (GetSecret sampleSdk sampleUnmarshal sampleCache 50 51 "arn:1".data).remoteCalls = [] ∧
    (GetSecret sampleSdk sampleUnmarshal sampleCache 50 51 "arn:1".data).result
      = .ok [("user".data, .str "u".data)] :=
  have h := (GetSecret_cache sampleSdk sampleUnmarshal sampleCache 50 51 "arn:1".data).1
    { data := sampleSecret, expireTime := 100 } (by rfl) (by decide)
  ⟨h.1, h.2.2.1.trans (by rfl)⟩

/-- The same cache read at its expiry time 100: the entry is no longer valid, the secret
is retrieved remotely and stored until 15 minutes after the time of storing. -/
theorem GetSecret_expired :
    (GetSecret sampleSdk sampleUnmarshal sampleCache 100 101 "arn:1".data).remoteCalls
      = ["arn:1".data] ∧
    (GetSecret sampleSdk sampleUnmarshal sampleCache 100 101 "arn:1".data).cache "arn:1".data
      = some { data := sampleSecret, expireTime := 900000000101 } ∧
    (GetSecret sampleSdk sampleUnmarshal sampleCache 50 51 "arn:2".data).result
      = .error (.error
          "SecretManager.GetSecret: SecretManager.GetSecretNonCache: ResourceNotFoundException".data) :=
  ⟨by rfl, by rfl, by rfl⟩

/-! ## Kafka client configuration -/

theorem mem_omitEmpty (key : Str) (field : Option Json) (k : Str) (v : Json) :
    (k, v) ∈ omitEmpty key field ↔ k = key ∧ field = some v := by
  cases field with
  | none => simp [omitEmpty]
  | some w =>
    simp only [omitEmpty, List.mem_singleton, Prod.mk.injEq, Option.some.injEq]
    constructor
    · rintro ⟨h1, h2⟩; exact ⟨h1, h2.symm⟩
    · rintro ⟨h1, h2⟩; exact ⟨h1, h2.symm⟩

theorem mem_omitEmptyBool (key : Str) (field : Bool) (k : Str) (v : Json) :
    (k, v) ∈ omitEmptyBool key field ↔ k = key ∧ field = true ∧ v = .bool true := by
  cases field <;> simp [omitEmptyBool]

theorem mem_embeddedCredMembers (cred : Option KafkaCred) (k : Str) (v : Json) :
    (k, v) ∈ embeddedCredMembers cred ↔
      (k = "bootstrap.servers".data ∧ credField cred KafkaCred.Brokers = some v) ∨
      (k = "sasl.username".data ∧ credField cred KafkaCred.Username = some v) ∨
      (k = "sasl.password".data ∧ credField cred KafkaCred.Password = some v) ∨
      (k = "sasl.mechanisms".data ∧ credField cred KafkaCred.SASLMechanism = some v) ∨
      (k = "security.protocol".data ∧ credField cred KafkaCred.SASLProtocol = some v) ∨
      (k = "client.id".data ∧ credField cred KafkaCred.ClientID = some v) := by
  cases cred with
  | none => simp [embeddedCredMembers, credField]
  | some c =>
    simp only [embeddedCredMembers, KafkaCred.members, List.mem_append, mem_omitEmpty,
      credField, or_assoc]

theorem keys_sublist_omitEmpty (key : Str) (field : Option Json) :
    ((omitEmpty key field).map Prod.fst).Sublist [key] := by
  cases field <;> simp [omitEmpty]

theorem keys_sublist_omitEmptyBool (key : Str) (field : Bool) :
    ((omitEmptyBool key field).map Prod.fst).Sublist [key] := by
  cases field <;> simp [omitEmptyBool]

theorem keys_sublist_cred (cred : Option KafkaCred) :
    ((embeddedCredMembers cred).map Prod.fst).Sublist
      ["bootstrap.servers".data, "sasl.username".data, "sasl.password".data,
       "sasl.mechanisms".data, "security.protocol".data, "client.id".data] := by
  cases cred with
  | none => simp [embeddedCredMembers]
  | some c =>
    simp only [embeddedCredMembers, KafkaCred.members, List.map_append]
    exact ((((((keys_sublist_omitEmpty _ c.Brokers).append
      (keys_sublist_omitEmpty _ c.Username)).append
      (keys_sublist_omitEmpty _ c.Password)).append
      (keys_sublist_omitEmpty _ c.SASLMechanism)).append
      (keys_sublist_omitEmpty _ c.SASLProtocol)).append
      (keys_sublist_omitEmpty _ c.ClientID))

/-- C8. The JSON object written for a `KafkaConsumerConfig` or a `KafkaProducerConfig` has
a member under a key exactly when the field tagged with that key is set (non-nil, or true
for the event-channel toggle), the member then carries the field's value unchanged (`true`
for the toggle), no key occurs twice, and the keys are those of the credential block plus
`group.id`, `go.events.channel.enable`, `auto.offset.reset` for the consumer and `acks`
for the producer. -/
theorem KafkaConfig_members (c : KafkaConsumerConfig) (p : KafkaProducerConfig)
    (k : Str) (v : Json) :
    ((k, v) ∈ c.members ↔
      (k = "bootstrap.servers".data ∧ credField c.KafkaCred KafkaCred.Brokers = some v) ∨
      (k = "sasl.username".data ∧ credField c.KafkaCred KafkaCred.Username = some v) ∨
      (k = "sasl.password".data ∧ credField c.KafkaCred KafkaCred.Password = some v) ∨
      (k = "sasl.mechanisms".data ∧ credField c.KafkaCred KafkaCred.SASLMechanism = some v) ∨
      (k = "security.protocol".data ∧ credField c.KafkaCred KafkaCred.SASLProtocol = some v) ∨
      (k = "client.id".data ∧ credField c.KafkaCred KafkaCred.ClientID = some v) ∨
      (k = "group.id".data ∧ c.GroupID = some v) ∨
      (k = "go.events.channel.enable".data ∧ c.GoEventChannel = true ∧ v = .bool true) ∨
      (k = "auto.offset.reset".data ∧ c.OffsetReset = some v)) ∧
    ((k, v) ∈ p.members ↔
      (k = "bootstrap.servers".data ∧ credField p.KafkaCred KafkaCred.Brokers = some v) ∨
      (k = "sasl.username".data ∧ credField p.KafkaCred KafkaCred.Username = some v) ∨
      (k = "sasl.password".data ∧ credField p.KafkaCred KafkaCred.Password = some v) ∨
      (k = "sasl.mechanisms".data ∧ credField p.KafkaCred KafkaCred.SASLMechanism = some v) ∨
      (k = "security.protocol".data ∧ credField p.KafkaCred KafkaCred.SASLProtocol = some v) ∨
      (k = "client.id".data ∧ credField p.KafkaCred KafkaCred.ClientID = some v) ∨
      (k = "acks".data ∧ p.Acknowledge = some v)) ∧
    (c.members.map Prod.fst).Nodup ∧ (p.members.map Prod.fst).Nodup := by
  refine ⟨?_, ?_, ?_, ?_⟩
  · simp only [KafkaConsumerConfig.members, List.mem_append, mem_embeddedCredMembers,
      mem_omitEmpty, mem_omitEmptyBool, or_assoc]
  · simp only [KafkaProducerConfig.members, List.mem_append, mem_embeddedCredMembers,
      mem_omitEmpty, or_assoc]
  · have hs : (c.members.map Prod.fst).Sublist
        (["bootstrap.servers".data, "sasl.username".data, "sasl.password".data,
          "sasl.mechanisms".data, "security.protocol".data, "client.id".data]
          ++ ["group.id".data] ++ ["go.events.channel.enable".data]
          ++ ["auto.offset.reset".data]) := by
      simp only [KafkaConsumerConfig.members, List.map_append]
      exact (((keys_sublist_cred c.KafkaCred).append
        (keys_sublist_omitEmpty _ c.GroupID)).append
        (keys_sublist_omitEmptyBool _ c.GoEventChannel)).append
        (keys_sublist_omitEmpty _ c.OffsetReset)
    exact hs.nodup (by decide)
  · have hs : (p.members.map Prod.fst).Sublist
        (["bootstrap.servers".data, "sasl.username".data, "sasl.password".data,
          "sasl.mechanisms".data, "security.protocol".data, "client.id".data]
          ++ ["acks".data]) := by
      simp only [KafkaProducerConfig.members, List.map_append]
      exact (keys_sublist_cred p.KafkaCred).append (keys_sublist_omitEmpty _ p.Acknowledge)
    exact hs.nodup (by decide)

/-- The test-environment consumer configuration is written with exactly its three set
fields; the unset credentials and the event-channel toggle are omitted. -/
theorem KafkaConfig_sample :
    sampleConsumerConfig.MarshalJSON
      = utf8Encode
          "\x7b\"bootstrap.servers\":\"localhost:9092\",\"group.id\":\"g1\",\"auto.offset.reset\":\"earliest\"\x7d".data := by
  rfl

/-! ## HTTP error middleware -/

theorem WriteJson_written (wroteHeader : Bool) (statusCode : Int) (blob : List Byte)
    (h : wroteHeader = true ∨ (100 ≤ statusCode ∧ statusCode ≤ 999)) :
    WriteJsonWithStatusCode wroteHeader statusCode blob
      = { calls := [.addHeader .HttpHeaderContentType .HttpContentTypeJSON,
                    .writeHeader statusCode, .write blob],
          panic := none } := by
  have hc : ¬ (wroteHeader = false ∧ checkWriteHeaderCode statusCode = true) := by
    rintro ⟨h1, h2⟩
    simp only [checkWriteHeaderCode, decide_eq_true_eq] at h2
    rcases h with h | h
    · rw [h1] at h
      cases h
    · omega
  unfold WriteJsonWithStatusCode
  rw [if_neg hc]

theorem WriteJson_panics (statusCode : Int) (blob : List Byte)
    (h : statusCode < 100 ∨ 999 < statusCode) :
    WriteJsonWithStatusCode false statusCode blob
      = { calls := [.addHeader .HttpHeaderContentType .HttpContentTypeJSON,
                    .writeHeader statusCode],
          panic := some statusCode } := by
  have hc : (false = false ∧ checkWriteHeaderCode statusCode = true) := by
    refine ⟨rfl, ?_⟩
    simp only [checkWriteHeaderCode, decide_eq_true_eq]
    omega
  unfold WriteJsonWithStatusCode
  rw [if_pos hc]

theorem notifyCalls_eq (b : BaseApp) (notify : Bool) (statusCode : Int) (errorCode : Str)
    (err : GoError) (stackTrace : Str) (errorData : Option Json) :
    notifyCalls b notify statusCode errorCode err stackTrace errorData
      = if notify = true ∧ b.hasErrorNotifier = true then
          [{ kind := if statusCode ≥ 500 then .Send5XX else .Send4XX,
             errorCode := errorCode, err := err, stackTrace := stackTrace,
             errorData := errorData }]
        else [] := by
  unfold notifyCalls
  by_cases hn : notify = true ∧ b.hasErrorNotifier = true
  · have hn2 : (notify && b.hasErrorNotifier) = true := by simp [hn.1, hn.2]
    rw [if_pos hn, if_pos hn2]
    by_cases hs : statusCode ≥ 500
    · simp only [hs, if_true]
    · simp only [hs, if_false]
  · have hn2 : ¬ ((notify && b.hasErrorNotifier) = true) := by
      simpa [Bool.and_eq_true] using hn
    rw [if_neg hn, if_neg hn2]

/-- C10, amended. `SendErrorResponse` first calls the error notifier, exactly when the
matched error has its `Notify` flag set and a notifier is configured, once, with `Send5XX`
when the status is at least 500 and `Send4XX` otherwise, and never for an error that is
neither an `HTTPError` nor a `CustomError`. It then adds the JSON content type header and
calls `w.WriteHeader` with the status code of the `HTTPError` when the error wraps one and
with 500 in every other case. When that code is within 100..999, or the response header
was already written, it writes the body: that of the `HTTPError`, else of the wrapped
`CustomError`, else of a fresh `CustomError` with code `UNKNOWN`. When the code of the
`HTTPError` is outside 100..999 and the response header was not written yet,
`w.WriteHeader` panics and no body is written. -/
theorem SendErrorResponse_spec (b : BaseApp) (wroteHeader : Bool) (stackTrace : Str)
    (err : GoError) :
    (∀ h, asHTTPError err = some h →
      (SendErrorResponse b wroteHeader stackTrace err).notifications
        = (if h.CustomError.Notify = true ∧ b.hasErrorNotifier = true then
            [{ kind := if h.ErrorStatusCode ≥ 500 then .Send5XX else .Send4XX,
               errorCode := h.CustomError.ErrorCode, err := err, stackTrace := stackTrace,
               errorData := h.CustomError.ErrorData }]
          else []) ∧
      (wroteHeader = true ∨ (100 ≤ h.ErrorStatusCode ∧ h.ErrorStatusCode ≤ 999) →
        (SendErrorResponse b wroteHeader stackTrace err).writes
          = [.addHeader .HttpHeaderContentType .HttpContentTypeJSON,
             .writeHeader h.ErrorStatusCode, .write (b.httpErrorResponse h)] ∧
        (SendErrorResponse b wroteHeader stackTrace err).panic = none) ∧
      (wroteHeader = false → h.ErrorStatusCode < 100 ∨ 999 < h.ErrorStatusCode →
        (SendErrorResponse b wroteHeader stackTrace err).writes
          = [.addHeader .HttpHeaderContentType .HttpContentTypeJSON,
             .writeHeader h.ErrorStatusCode] ∧
        (SendErrorResponse b wroteHeader stackTrace err).panic = some h.ErrorStatusCode)) ∧
    (asHTTPError err = none → ∀ c, asCustomError err = some c →
      (SendErrorResponse b wroteHeader stackTrace err).writes
        = [.addHeader .HttpHeaderContentType .HttpContentTypeJSON,
           .writeHeader 500, .write (b.customErrorResponse c)] ∧
      (SendErrorResponse b wroteHeader stackTrace err).panic = none ∧
      (SendErrorResponse b wroteHeader stackTrace err).notifications
        = if c.Notify = true ∧ b.hasErrorNotifier = true then
            [{ kind := .Send5XX, errorCode := [], err := err, stackTrace := stackTrace,
               errorData := c.ErrorData }]
          else []) ∧
    (asHTTPError err = none → asCustomError err = none →
      (SendErrorResponse b wroteHeader stackTrace err).writes
        = [.addHeader .HttpHeaderContentType .HttpContentTypeJSON,
           .writeHeader 500,
           .write (b.customErrorResponse
             (NewCustomError "UNKNOWN".data "Unknown error".data (some unknownErrorData) true))] ∧
      (SendErrorResponse b wroteHeader stackTrace err).panic = none ∧
      (SendErrorResponse b wroteHeader stackTrace err).notifications = []) := by
  have h500 : ∀ blob, WriteJsonWithStatusCode wroteHeader 500 blob
      = { calls := [.addHeader .HttpHeaderContentType .HttpContentTypeJSON,
                    .writeHeader 500, .write blob],
          panic := none } :=
    fun blob => WriteJson_written wroteHeader 500 blob (Or.inr (by decide))
  refine ⟨?_, ?_, ?_⟩
  · intro h hh
    refine ⟨?_, ?_, ?_⟩
    · simp only [SendErrorResponse, hh, notifyCalls_eq]
    · intro hok
      simp only [SendErrorResponse, hh, WriteJson_written wroteHeader _ _ hok, and_self]
    · intro hw hbad
      subst hw
      simp only [SendErrorResponse, hh, WriteJson_panics _ _ hbad, and_self]
  · intro hh c hc
    refine ⟨?_, ?_, ?_⟩
    · simp only [SendErrorResponse, hh, hc, h500]
    · simp only [SendErrorResponse, hh, hc, h500]
    · simp only [SendErrorResponse, hh, hc, notifyCalls_eq]
      by_cases hn : c.Notify = true ∧ b.hasErrorNotifier = true
      · simp [hn]
      · simp only [hn, if_false]
  · intro hh hc
    refine ⟨?_, ?_, ?_⟩
    · simp only [SendErrorResponse, hh, hc, h500]
    · simp only [SendErrorResponse, hh, hc, h500]
    · simp only [SendErrorResponse, hh, hc, notifyCalls_eq]
      simp

/-- C10, amended, at one error of each kind, in an application with a notifier and on a
response whose header is not written yet: an error that wraps an `HTTPError` with status
404 and `Notify` set gives status 404 and one `Send4XX`; a `CustomError` with `Notify` set
gives status 500 and one `Send5XX`; any other error gives status 500, the body of the
`UNKNOWN` error and no notification; an `HTTPError` with status 0 makes `w.WriteHeader`
panic before a body is written. -/
theorem SendErrorResponse_spec_witness :
    ((SendErrorResponse sampleApp false [] [.wrap "handler: ".data, .http notFound]).writes
        = [.addHeader .HttpHeaderContentType .HttpContentTypeJSON, .writeHeader 404,
           .write (utf8Encode "NOT_FOUND".data)] ∧
      ((SendErrorResponse sampleApp false []
          [.wrap "handler: ".data, .http notFound]).notifications.map Notification.kind)
        = [.Send4XX]) ∧
    ((SendErrorResponse sampleApp false [] [.custom outOfStock]).writes
        = [.addHeader .HttpHeaderContentType .HttpContentTypeJSON, .writeHeader 500,
           .write (utf8Encode "OUT_OF_STOCK".data)] ∧
      ((SendErrorResponse sampleApp false []
          [.custom outOfStock]).notifications.map Notification.kind) = [.Send5XX]) ∧
    ((SendErrorResponse sampleApp false [] [.plain "boom".data]).writes
        = [.addHeader .HttpHeaderContentType .HttpContentTypeJSON, .writeHeader 500,
           .write (utf8Encode "UNKNOWN".data)] ∧
      (SendErrorResponse sampleApp false [] [.plain "boom".data]).notifications = []) ∧
    ((SendErrorResponse sampleApp false [] [.http zeroStatus]).writes
        = [.addHeader .HttpHeaderContentType .HttpContentTypeJSON, .writeHeader 0] ∧
      (SendErrorResponse sampleApp false [] [.http zeroStatus]).panic = some 0) :=
  have h1 := (SendErrorResponse_spec sampleApp false [] [.wrap "handler: ".data,
    .http notFound]).1 notFound rfl
  have h2 := (SendErrorResponse_spec sampleApp false [] [.custom outOfStock]).2.1 rfl
    outOfStock rfl
  have h3 := (SendErrorResponse_spec sampleApp false [] [.plain "boom".data]).2.2 rfl rfl
  have h4 := (SendErrorResponse_spec sampleApp false [] [.http zeroStatus]).1 zeroStatus rfl
  ⟨⟨(h1.2.1 (Or.inr (by decide))).1, by rw [h1.1]; rfl⟩,
   ⟨h2.1, by rw [h2.2.2]; rfl⟩,
   ⟨h3.1, h3.2.2⟩,
   h4.2.2 rfl (Or.inl (by decide))⟩

/-- C10 as stated fails: for an error that wraps an `HTTPError` with status code 0 and
`Notify` set, on a response whose header is not written yet, `SendErrorResponse` calls
`Send4XX`, adds the content type header and calls `w.WriteHeader(0)`, which panics: the
body of the `HTTPError` is never written. -/
theorem SendErrorResponse_invalid_status :
    asHTTPError [.http zeroStatus] = some zeroStatus ∧
    WriterCall.write (sampleApp.httpErrorResponse zeroStatus)
      ∉ (SendErrorResponse sampleApp false [] [.http zeroStatus]).writes ∧
    (SendErrorResponse sampleApp false [] [.http zeroStatus]).writes
      = [.addHeader .HttpHeaderContentType .HttpContentTypeJSON, .writeHeader 0] ∧
    (SendErrorResponse sampleApp false [] [.http zeroStatus]).panic = some 0 ∧
    ((SendErrorResponse sampleApp false [] [.http zeroStatus]).notifications.map
      Notification.kind) = [.Send4XX] := by
  refine ⟨rfl, ?_, ?_, ?_, ?_⟩ <;> decide

theorem runHandler_lastRecorded {V : Type} (handler : List (HandlerAction V)) :
    ∀ (last : Option (Option GoError)) (wroteHeader : Bool),
      (runHandler handler last.join wroteHeader).panic = none →
      (runHandler handler last.join wroteHeader).handlerError
        = (lastRecorded handler last).join := by
  induction handler with
  | nil => intro last _ _; rfl
  | cons a rest ih =>
    intro last wroteHeader h
    cases a with
    | panic rec => simp [runHandler] at h
    | writeResponse =>
      simp only [runHandler, lastRecorded] at h ⊢
      exact ih last true h
    | setHandlerError ctx err =>
      cases ctx with
      | request =>
        simp only [runHandler, SetHandlerError, lastRecorded] at h ⊢
        exact ih (some err) wroteHeader h
      | noSetter =>
        simp only [runHandler, SetHandlerError, lastRecorded] at h ⊢
        exact ih last wroteHeader h
      | corrupted => simp [runHandler, SetHandlerError] at h

theorem WriteJson_panic_iff (wroteHeader : Bool) (statusCode : Int) (blob : List Byte)
    (code : Int) (h : (WriteJsonWithStatusCode wroteHeader statusCode blob).panic = some code) :
    wroteHeader = false ∧ (code < 100 ∨ 999 < code) ∧ statusCode = code := by
  by_cases hv : wroteHeader = true ∨ (100 ≤ statusCode ∧ statusCode ≤ 999)
  · rw [WriteJson_written wroteHeader statusCode blob hv] at h
    cases h
  · have hw : wroteHeader = false := by
      cases wroteHeader with
      | false => rfl
      | true => exact absurd (Or.inl rfl) hv
    have hbad : statusCode < 100 ∨ 999 < statusCode := by
      have hv2 : ¬ (100 ≤ statusCode ∧ statusCode ≤ 999) := fun hx => hv (Or.inr hx)
      omega
    subst hw
    rw [WriteJson_panics statusCode blob hbad] at h
    simp only [Option.some.injEq] at h
    subst h
    exact ⟨rfl, hbad, rfl⟩

/-- `SendErrorResponse` panics only in `w.WriteHeader`, for an error that wraps an
`HTTPError` with a status code outside 100..999, on a response whose header is not
written yet. -/
theorem SendErrorResponse_panic (b : BaseApp) (wroteHeader : Bool) (stackTrace : Str)
    (err : GoError) (code : Int)
    (h : (SendErrorResponse b wroteHeader stackTrace err).panic = some code) :
    wroteHeader = false ∧ (code < 100 ∨ 999 < code) ∧
      ∃ httpErr, asHTTPError err = some httpErr ∧ httpErr.ErrorStatusCode = code := by
  cases hh : asHTTPError err with
  | some httpErr =>
    simp only [SendErrorResponse, hh] at h
    obtain ⟨hw, hbad, hcode⟩ := WriteJson_panic_iff _ _ _ _ h
    exact ⟨hw, hbad, httpErr, rfl, hcode⟩
  | none =>
    cases hc : asCustomError err with
    | some c =>
      simp only [SendErrorResponse, hh, hc] at h
      obtain ⟨_, hbad, hcode⟩ := WriteJson_panic_iff _ _ _ _ h
      omega
    | none =>
      simp only [SendErrorResponse, hh, hc] at h
      obtain ⟨_, hbad, hcode⟩ := WriteJson_panic_iff _ _ _ _ h
      omega

theorem SendErrorResponse_plain (b : BaseApp) (wroteHeader : Bool) (stackTrace message : Str) :
    (SendErrorResponse b wroteHeader stackTrace [.plain message]).panic = none := by
  cases hp : (SendErrorResponse b wroteHeader stackTrace [.plain message]).panic with
  | none => rfl
  | some code =>
    obtain ⟨_, _, httpErr, hh, _⟩ := SendErrorResponse_panic b wroteHeader stackTrace _ code hp
    simp [asHTTPError] at hh

/-- C9, amended. If the handler panics with `rec`, `HandleExceptionMiddleware` recovers
it and calls `SendErrorResponse` exactly once, with `rec` itself when it is an error and
otherwise with an error whose message is `non error panic: ` followed by the JSON encoding
of `rec`; no panic leaves the middleware, except that of `w.WriteHeader` in that call,
which happens exactly when the error wraps an `HTTPError` whose status code is outside
100..999 and the response header is not written yet. If the handler does not panic and
its last call of `SetHandlerError` that reached the middleware's setter passed a non-nil
error, `SendErrorResponse` is called for that error with an empty stack trace; this is the
only response unless `w.WriteHeader` panics in it, in which case the deferred function
recovers that panic and sends a second response for it. If the handler does not panic and
there was no such call, or the last one passed nil, no error response is sent. -/
theorem HandleExceptionMiddleware_spec {V : Type} (b : BaseApp) (stack : Str)
    (marshal : V → Str) (handler : List (HandlerAction V)) :
    (∀ err, (runHandler handler none false).panic = some (.error err) →
      (HandleExceptionMiddleware b stack marshal handler).responses
        = [SendErrorResponse b (runHandler handler none false).wroteHeader stack err] ∧
      (HandleExceptionMiddleware b stack marshal handler).panic
        = (SendErrorResponse b (runHandler handler none false).wroteHeader stack err).panic.map
            PanicValue.invalidWriteHeaderCode) ∧
    (∀ v, (runHandler handler none false).panic = some (.value v) →
      (HandleExceptionMiddleware b stack marshal handler).responses
        = [SendErrorResponse b (runHandler handler none false).wroteHeader stack
            [.plain ("non error panic: ".data ++ marshal v)]] ∧
      (HandleExceptionMiddleware b stack marshal handler).panic = none) ∧
    (∀ code, (runHandler handler none false).panic = some (.invalidWriteHeaderCode code) →
      (HandleExceptionMiddleware b stack marshal handler).responses
        = [SendErrorResponse b (runHandler handler none false).wroteHeader stack
            (recoveredError marshal (.invalidWriteHeaderCode code))] ∧
      (HandleExceptionMiddleware b stack marshal handler).panic = none) ∧
    ((runHandler handler none false).panic = none →
      (∀ err, lastRecorded handler none = some (some err) →
        ((SendErrorResponse b (runHandler handler none false).wroteHeader [] err).panic = none →
          (HandleExceptionMiddleware b stack marshal handler).responses
            = [SendErrorResponse b (runHandler handler none false).wroteHeader [] err]) ∧
        (∀ code,
          (SendErrorResponse b (runHandler handler none false).wroteHeader [] err).panic
            = some code →
          (HandleExceptionMiddleware b stack marshal handler).responses
            = [SendErrorResponse b (runHandler handler none false).wroteHeader [] err,
               SendErrorResponse b (runHandler handler none false).wroteHeader stack
                 (recoveredError marshal (.invalidWriteHeaderCode code))]) ∧
        (HandleExceptionMiddleware b stack marshal handler).panic = none) ∧
      (lastRecorded handler none = none ∨ lastRecorded handler none = some none →
        (HandleExceptionMiddleware b stack marshal handler).responses = [] ∧
        (HandleExceptionMiddleware b stack marshal handler).panic = none)) ∧
    (∀ p, (HandleExceptionMiddleware b stack marshal handler).panic = some p →
      ∃ err httpErr, (runHandler handler none false).panic = some (.error err) ∧
        (runHandler handler none false).wroteHeader = false ∧
        asHTTPError err = some httpErr ∧
        (httpErr.ErrorStatusCode < 100 ∨ 999 < httpErr.ErrorStatusCode) ∧
        p = .invalidWriteHeaderCode httpErr.ErrorStatusCode) := by
  have hl : (runHandler handler none false).panic = none →
      (runHandler handler none false).handlerError = (lastRecorded handler none).join :=
    runHandler_lastRecorded handler none false
  have hplain : ∀ w st m, (SendErrorResponse b w st [ErrNode.plain m]).panic = none :=
    fun w st m => SendErrorResponse_plain b w st m
  cases hr : runHandler handler none false with
  | mk handlerError wrote panicked =>
    rw [hr] at hl
    simp only at hl
    cases panicked with
    | some rec =>
      cases rec with
      | error e =>
        refine ⟨?_, ?_, ?_, ?_, ?_⟩
        · intro err he
          simp only [Option.some.injEq, PanicValue.error.injEq] at he
          subst he
          simp only [HandleExceptionMiddleware, hr, recoverPanic, recoveredError,
            List.nil_append, and_self]
        · intro v he; simp at he
        · intro code he; simp at he
        · intro he; simp at he
        · intro p hp
          simp only [HandleExceptionMiddleware, hr, recoverPanic, recoveredError] at hp
          cases hsp : (SendErrorResponse b wrote stack e).panic with
          | none => rw [hsp] at hp; simp at hp
          | some code =>
            rw [hsp] at hp
            simp only [Option.map_some', Option.some.injEq] at hp
            obtain ⟨hw, hbad, httpErr, hh, hcode⟩ :=
              SendErrorResponse_panic b wrote stack e code hsp
            refine ⟨e, httpErr, rfl, hw, hh, by rw [hcode]; exact hbad, ?_⟩
            rw [hcode, ← hp]
      | value v0 =>
        refine ⟨?_, ?_, ?_, ?_, ?_⟩
        · intro err he; simp at he
        · intro v he
          simp only [Option.some.injEq, PanicValue.value.injEq] at he
          subst he
          simp only [HandleExceptionMiddleware, hr, recoverPanic, recoveredError,
            List.nil_append, hplain, Option.map_none', and_self]
        · intro code he; simp at he
        · intro he; simp at he
        · intro p hp
          simp only [HandleExceptionMiddleware, hr, recoverPanic, recoveredError, hplain,
            Option.map_none'] at hp
          cases hp
      | invalidWriteHeaderCode c0 =>
        refine ⟨?_, ?_, ?_, ?_, ?_⟩
        · intro err he; simp at he
        · intro v he; simp at he
        · intro code he
          simp only [Option.some.injEq, PanicValue.invalidWriteHeaderCode.injEq] at he
          subst he
          simp only [HandleExceptionMiddleware, hr, recoverPanic, recoveredError,
            List.nil_append, hplain, Option.map_none', and_self]
        · intro he; simp at he
        · intro p hp
          simp only [HandleExceptionMiddleware, hr, recoverPanic, recoveredError, hplain,
            Option.map_none'] at hp
          cases hp
    | none =>
      have hl1 : handlerError = (lastRecorded handler none).join := hl rfl
      refine ⟨?_, ?_, ?_, ?_, ?_⟩
      · intro err he; simp at he
      · intro v he; simp at he
      · intro code he; simp at he
      · intro _
        refine ⟨?_, ?_⟩
        · intro err hlast
          rw [hlast] at hl1
          have hl2 : handlerError = some err := hl1
          subst hl2
          refine ⟨?_, ?_, ?_⟩
          · intro hnp
            simp only [HandleExceptionMiddleware, hr, hnp]
          · intro code hp
            simp only [HandleExceptionMiddleware, hr, hp, recoverPanic, List.singleton_append]
          · cases hsp : (SendErrorResponse b wrote [] err).panic with
            | none => simp only [HandleExceptionMiddleware, hr, hsp]
            | some code =>
              simp only [HandleExceptionMiddleware, hr, hsp, recoverPanic, recoveredError,
                hplain, Option.map_none']
        · intro hlast
          have hnone : handlerError = none := by
            rcases hlast with hlast | hlast <;> (rw [hlast] at hl1; exact hl1)
          subst hnone
          simp only [HandleExceptionMiddleware, hr, and_self]
      · intro p hp
        exfalso
        cases handlerError with
        | none => simp [HandleExceptionMiddleware, hr] at hp
        | some e =>
          cases hsp : (SendErrorResponse b wrote [] e).panic with
          | none => simp [HandleExceptionMiddleware, hr, hsp] at hp
          | some code =>
            simp [HandleExceptionMiddleware, hr, hsp, recoverPanic, recoveredError, hplain] at hp

/-- C9, amended, at three handlers. One records an error and then panics with the string
`boom`: the one response is that of the panic and no panic leaves the middleware. One
records an `HTTPError` with status 404 and returns: the one response is for that error.
One panics with an `HTTPError` with status 0 before the response header is written: the
panic of `w.WriteHeader(0)` leaves the middleware. -/
theorem HandleExceptionMiddleware_spec_witness :
    ((HandleExceptionMiddleware sampleApp "trace".data render panickingHandler).responses
        = [SendErrorResponse sampleApp false "trace".data
            [.plain "non error panic: \"boom\"".data]] ∧
      (HandleExceptionMiddleware sampleApp "trace".data render panickingHandler).panic = none) ∧
    ((HandleExceptionMiddleware sampleApp "trace".data render recordingHandler).responses
        = [SendErrorResponse sampleApp false [] [.http notFound]] ∧
      (HandleExceptionMiddleware sampleApp "trace".data render recordingHandler).panic = none) ∧
    ((HandleExceptionMiddleware sampleApp "trace".data render zeroStatusPanicHandler).responses
        = [SendErrorResponse sampleApp false "trace".data [.http zeroStatus]] ∧
      (HandleExceptionMiddleware sampleApp "trace".data render zeroStatusPanicHandler).panic
        = some (.invalidWriteHeaderCode 0)) :=
  have h1 := (HandleExceptionMiddleware_spec sampleApp "trace".data render
    panickingHandler).2.1 (.str "boom".data) rfl
  have h2 := ((HandleExceptionMiddleware_spec sampleApp "trace".data render
    recordingHandler).2.2.2.1 rfl).1 [.http notFound] rfl
  have h3 := (HandleExceptionMiddleware_spec sampleApp "trace".data render
    zeroStatusPanicHandler).1 [.http zeroStatus] rfl
  ⟨h1, ⟨h2.1 rfl, h2.2.2⟩, ⟨h3.1, h3.2.trans rfl⟩⟩

/-- C9 as stated fails: a handler that records an error through `SetHandlerError` and then
calls `SetHandlerError` with nil does not panic and has recorded an error, yet no error
response is sent for the last recorded error. -/
theorem HandleExceptionMiddleware_cleared_record :
    ¬ (panics clearingHandler = false → recordedErrors clearingHandler ≠ [] →
        ∃ err, (recordedErrors clearingHandler).getLast? = some err ∧
          (HandleExceptionMiddleware sampleApp [] render clearingHandler).responses
            = [SendErrorResponse sampleApp false [] err]) := by
  intro h
  have hrec : recordedErrors clearingHandler = [[.http notFound]] := rfl
  obtain ⟨err, _, hresp⟩ := h rfl (by rw [hrec]; exact List.cons_ne_nil _ _)
  have hnone : (HandleExceptionMiddleware sampleApp [] render clearingHandler).responses = [] :=
    rfl
  rw [hnone] at hresp
  cases hresp

/-- A panic inside the recovery leaves the middleware: a handler that panics with an
`HTTPError` whose status code is 0, before the response header is written, makes
`SendErrorResponse` panic in `w.WriteHeader(0)` within the deferred function. When the
handler has written its response before, `w.WriteHeader` returns and nothing leaves. When
the handler records that error without panicking, the panic of `w.WriteHeader` is
recovered and a second response, with status 500, is sent. -/
theorem HandleExceptionMiddleware_invalid_status :
    (HandleExceptionMiddleware sampleApp [] render zeroStatusPanicHandler).panic
      = some (.invalidWriteHeaderCode 0) ∧
    (HandleExceptionMiddleware sampleApp [] render writeThenPanicHandler).panic = none ∧
    (HandleExceptionMiddleware sampleApp [] render zeroStatusRecordHandler).panic = none ∧
    ((HandleExceptionMiddleware sampleApp [] render zeroStatusRecordHandler).responses.map
      ErrorResponse.writes)
      = [[.addHeader .HttpHeaderContentType .HttpContentTypeJSON, .writeHeader 0],
         [.addHeader .HttpHeaderContentType .HttpContentTypeJSON, .writeHeader 500,
          .write (utf8Encode "UNKNOWN".data)]] :=
  ⟨rfl, rfl, rfl, rfl⟩

/-! ## PKCS7 padding and AES-CBC -/

theorem UnPad_of_last (p : PKCS7) (d : List Byte) (last : Byte)
    (h : d.getLast? = some last) :
    p.UnPad d = if d.length < last.toNat then .error .sliceBoundsOutOfRange
                else .ok (d.take (d.length - last.toNat)) := by
  have hne : d ≠ [] := by
    intro hd
    rw [hd] at h
    simp at h
  have hlen : 0 < d.length := List.length_pos.mpr hne
  have hidx : ((d.length : Int) - 1).toNat = d.length - 1 := by omega
  have hget : d.getD (d.length - 1) 0 = last := by
    rw [List.getD_eq_getElem?_getD, ← List.getLast?_eq_getElem?, h]
    rfl
  have h1 : ¬ ((d.length : Int) - 1 < 0 ∨ (d.length : Int) ≤ (d.length : Int) - 1) := by omega
  unfold PKCS7.UnPad
  simp only [h1, if_false, hidx, hget]
  by_cases hlt : d.length < last.toNat
  · have h2 : (d.length : Int) - (last.toNat : Int) < 0 := by omega
    rw [if_pos h2, if_pos hlt]
  · have h2 : ¬ ((d.length : Int) - (last.toNat : Int) < 0) := by omega
    have h3 : ((d.length : Int) - (last.toNat : Int)).toNat = d.length - last.toNat := by omega
    rw [if_neg h2, if_neg hlt, h3]

theorem UnPad_nil (p : PKCS7) : p.UnPad [] = .error .indexOutOfRange := by
  rfl

/-- C12. PKCS7 round trip: for a block size between 1 and 255, `Pad(d)` is `d` followed by
`n` bytes of value `n` with `1 ≤ n ≤ blockSize`, its length is a multiple of the block
size, and `UnPad(Pad(d)) = d`. -/
theorem PKCS7_Pad_UnPad (bs : Int) (h1 : 1 ≤ bs) (h2 : bs ≤ 255) (d : List Byte) :
    ∃ n : Nat, 1 ≤ n ∧ (n : Int) ≤ bs ∧
      (NewPKCS7 bs).Pad d = .ok (d ++ List.replicate n (UInt8.ofNat n)) ∧
      (UInt8.ofNat n).toNat = n ∧
      bs ∣ ((d ++ List.replicate n (UInt8.ofNat n)).length : Int) ∧
      (NewPKCS7 bs).UnPad (d ++ List.replicate n (UInt8.ofNat n)) = .ok d := by
  have hbs : bs ≠ 0 := by omega
  have hm0 := Int.emod_nonneg (d.length : Int) hbs
  have hm1 := Int.emod_lt_of_pos (d.length : Int) (show 0 < bs by omega)
  have htm : (d.length : Int).tmod bs = (d.length : Int) % bs :=
    Int.tmod_eq_emod (by omega) (by omega)
  generalize hr : (d.length : Int) % bs = r at hm0 hm1 htm
  have hdiv := Int.emod_add_ediv (d.length : Int) bs
  rw [hr] at hdiv
  refine ⟨(bs - r).toNat, by omega, by omega, ?_, ?_, ?_, ?_⟩
  · have hp : ¬ (bs - r < 0) := by omega
    have hb : ((bs - r) % 256).toNat = (bs - r).toNat := by omega
    simp only [PKCS7.Pad, NewPKCS7, hbs, if_false, htm, hp, hb]
  · exact toNat_ofNat_lt _ (by omega)
  · refine ⟨(d.length : Int) / bs + 1, ?_⟩
    have hn : (((bs - r).toNat : Nat) : Int) = bs - r := by omega
    simp only [List.length_append, List.length_replicate, Nat.cast_add, hn]
    rw [mul_add, mul_one]
    omega
  · have hpos : 0 < (bs - r).toNat := by omega
    have hlast : (d ++ List.replicate (bs - r).toNat (UInt8.ofNat (bs - r).toNat)).getLast?
        = some (UInt8.ofNat (bs - r).toNat) := by
      rw [List.getLast?_append_of_ne_nil _ (by
        intro hnil
        have := congrArg List.length hnil
        simp at this
        omega)]
      cases hk : (bs - r).toNat with
      | zero => omega
      | succ k => simp [List.getLast?_replicate]
    rw [UnPad_of_last _ _ _ hlast, toNat_ofNat_lt _ (by omega)]
    have hlen : ¬ ((d ++ List.replicate (bs - r).toNat (UInt8.ofNat (bs - r).toNat)).length
        < (bs - r).toNat) := by
      simp only [List.length_append, List.length_replicate]
      omega
    rw [if_neg hlen]
    simp only [List.length_append, List.length_replicate, Nat.add_sub_cancel,
      List.take_left]

/-- C12 at block size 16 and the three bytes 1, 2, 3: thirteen bytes of value 13 are
appended and taken off again. -/
theorem PKCS7_Pad_UnPad_witness :
    ∃ n : Nat, 1 ≤ n ∧ (n : Int) ≤ 16 ∧
      (NewPKCS7 16).Pad [1, 2, 3] = .ok ([1, 2, 3] ++ List.replicate n (UInt8.ofNat n)) ∧
      (UInt8.ofNat n).toNat = n ∧
      (16 : Int) ∣ (([1, 2, 3] ++ List.replicate n (UInt8.ofNat n)).length : Int) ∧
      (NewPKCS7 16).UnPad ([1, 2, 3] ++ List.replicate n (UInt8.ofNat n)) = .ok [1, 2, 3] :=
  PKCS7_Pad_UnPad 16 (by decide) (by decide) [1, 2, 3]

/-- C14. `UnPad(d)` returns a value exactly when `d` is not empty and the value `n` of its
last byte is at most `len(d)`, and then it returns the first `len(d) - n` bytes; on the
empty input it panics with an index out of range and when `n > len(d)` with slice bounds
out of range. So `Decrypt` with the PKCS7 padder, a valid key and an IV of one block panics
on a ciphertext of whole blocks whose CBC decryption ends in a byte greater than its
length. -/
theorem PKCS7_UnPad_spec (p : PKCS7) (d : List Byte) :
    ((∃ r, p.UnPad d = .ok r) ↔ ∃ last, d.getLast? = some last ∧ last.toNat ≤ d.length) ∧
    (∀ last, d.getLast? = some last → last.toNat ≤ d.length →
      p.UnPad d = .ok (d.take (d.length - last.toNat))) ∧
    (d = [] → p.UnPad d = .error .indexOutOfRange) ∧
    (∀ last, d.getLast? = some last → d.length < last.toNat →
      p.UnPad d = .error .sliceBoundsOutOfRange) ∧
    (∀ (a : AESCBCV2) (aes : BlockCipher) (last : Byte),
      a.padder = p.toPadder → aesNewCipher a.key = .ok () → a.iv.length = aesBlockSize →
      d.length % aesBlockSize = 0 →
      (cbcDecrypt (aes.decrypt a.key) (d.length / aesBlockSize) a.iv d).getLast? = some last →
      (cbcDecrypt (aes.decrypt a.key) (d.length / aesBlockSize) a.iv d).length < last.toNat →
      a.Decrypt aes d = .error (.panic .sliceBoundsOutOfRange)) := by
  have hok : ∀ last, d.getLast? = some last → last.toNat ≤ d.length →
      p.UnPad d = .ok (d.take (d.length - last.toNat)) := by
    intro last hl hle
    rw [UnPad_of_last p d last hl, if_neg (by omega)]
  have hbad : ∀ last, d.getLast? = some last → d.length < last.toNat →
      p.UnPad d = .error .sliceBoundsOutOfRange := by
    intro last hl hlt
    rw [UnPad_of_last p d last hl, if_pos hlt]
  refine ⟨⟨?_, ?_⟩, hok, ?_, hbad, ?_⟩
  · rintro ⟨r, hr⟩
    cases hl : d.getLast? with
    | none =>
      have hd : d = [] := List.getLast?_eq_none_iff.mp hl
      rw [hd, UnPad_nil] at hr
      cases hr
    | some last =>
      refine ⟨last, rfl, ?_⟩
      by_contra hgt
      rw [hbad last hl (by omega)] at hr
      cases hr
  · rintro ⟨last, hl, hle⟩
    exact ⟨_, hok last hl hle⟩
  · intro hd
    rw [hd, UnPad_nil]
  · intro a aes last hpad hkey hiv hblocks hl hlt
    have hun : a.padder.UnPad
        (cbcDecrypt (aes.decrypt a.key) (d.length / aesBlockSize) a.iv d)
        = .error .sliceBoundsOutOfRange := by
      rw [hpad]
      show p.UnPad _ = _
      rw [UnPad_of_last p _ last hl, if_pos hlt]
    simp only [AESCBCV2.Decrypt, hkey, hiv, hblocks, ne_eq, not_true_eq_false, if_false, hun]

/-- C14 at a ciphertext of one block of bytes 200, an IV of bytes 1 and a block function
that leaves blocks as they are: the decrypted block ends in 201, more than its 16 bytes,
and `Decrypt` panics. -/
theorem PKCS7_UnPad_spec_witness :
    AESCBCV2.Decrypt
        { padder := (NewPKCS7 16).toPadder, key := utf8Encode sampleKey, iv := sampleIV }
        identityCipher (List.replicate 16 200)
      = .error (.panic .sliceBoundsOutOfRange) :=
  (PKCS7_UnPad_spec (NewPKCS7 16) (List.replicate 16 200)).2.2.2.2
    { padder := (NewPKCS7 16).toPadder, key := utf8Encode sampleKey, iv := sampleIV }
    identityCipher 201 rfl (by rfl) (by rfl) (by rfl) (by rfl) (by decide)

theorem PKCS7_Pad_ok (bs : Int) (h1 : 1 ≤ bs) (d : List Byte) :
    ∃ padded, (NewPKCS7 bs).Pad d = .ok padded := by
  have hbs : bs ≠ 0 := by omega
  have hm1 := Int.emod_lt_of_pos (d.length : Int) (show 0 < bs by omega)
  have htm : (d.length : Int).tmod bs = (d.length : Int) % bs :=
    Int.tmod_eq_emod (by omega) (by omega)
  have hp : ¬ (bs - (d.length : Int) % bs < 0) := by omega
  have hpad : (NewPKCS7 bs).Pad d
      = .ok (d ++ List.replicate (bs - (d.length : Int) % bs).toNat
          (UInt8.ofNat ((bs - (d.length : Int) % bs) % 256).toNat)) := by
    simp only [PKCS7.Pad, NewPKCS7, hbs, if_false, htm, hp]
  exact ⟨_, hpad⟩

/-- C11, what the code does. The value returned by `NewAESCBCConstantIV`, and so the one
returned by `NewAESCBCV2PKCS7ConstantIV`, has an empty `iv` whatever IV it is given: it
differs from every IV of one block, and `Encrypt` and `Decrypt` on it panic in
`cipher.NewCBCEncrypter` and `cipher.NewCBCDecrypter` on the length of the IV. -/
theorem NewAESCBCConstantIV_iv (getKey : Str → Except Str (List Byte)) (key : Str)
    (iv : List Byte) :
    (∀ padder a, NewAESCBCConstantIV getKey key iv padder = .ok a →
      a.iv = [] ∧ (iv.length = aesBlockSize → a.iv ≠ iv) ∧
      (∀ aes ct, aesNewCipher a.key = .ok () →
        a.Decrypt aes ct = .error (.panic .ivLengthMismatch))) ∧
    (∀ a, NewAESCBCV2PKCS7ConstantIV getKey key iv = .ok a →
      iv.length = aesBlockSize ∧ a.iv = [] ∧ a.iv ≠ iv ∧
      (∀ aes plain, a.Encrypt aes plain = .error (.panic .ivLengthMismatch)) ∧
      (∀ aes ct, a.Decrypt aes ct = .error (.panic .ivLengthMismatch))) := by
  have hbase : ∀ padder a, NewAESCBCConstantIV getKey key iv padder = .ok a →
      a.iv = [] ∧ a.padder = padder ∧ getKey key = .ok a.key := by
    intro padder a h
    unfold NewAESCBCConstantIV at h
    cases hk : getKey key with
    | error err => rw [hk] at h; cases h
    | ok keyByte =>
      rw [hk] at h
      simp only [Except.ok.injEq] at h
      subst h
      exact ⟨rfl, rfl, rfl⟩
  have hne : ∀ l : List Byte, l.length = aesBlockSize → ([] : List Byte) ≠ l := by
    intro l hl hnil
    rw [← hnil] at hl
    simp [aesBlockSize] at hl
  have hdec : ∀ (a : AESCBCV2) aes ct, a.iv = [] → aesNewCipher a.key = .ok () →
      a.Decrypt aes ct = .error (.panic .ivLengthMismatch) := by
    intro a aes ct hiv hkey
    simp [AESCBCV2.Decrypt, hkey, hiv, aesBlockSize]
  constructor
  · intro padder a h
    obtain ⟨hiv, _, _⟩ := hbase padder a h
    exact ⟨hiv, fun hl => by rw [hiv]; exact hne iv hl, fun aes ct hkey => hdec a aes ct hiv hkey⟩
  · intro a h
    cases hk : getKey key with
    | error err => simp only [NewAESCBCV2PKCS7ConstantIV, hk] at h; cases h
    | ok keyByte =>
      cases hc : aesNewCipher keyByte with
      | error err => simp only [NewAESCBCV2PKCS7ConstantIV, hk, hc] at h; cases h
      | ok u =>
        by_cases hl : iv.length = aesBlockSize
        · simp only [NewAESCBCV2PKCS7ConstantIV, hk, hc, hl, ne_eq, not_true_eq_false,
            if_false, dup] at h
          obtain ⟨hiv, hpad, hkey⟩ := hbase _ a h
          have hkb : a.key = keyByte := by
            rw [hk] at hkey
            simp only [Except.ok.injEq] at hkey
            exact hkey.symm
          have hca : aesNewCipher a.key = .ok () := by rw [hkb, hc]
          refine ⟨hl, hiv, by rw [hiv]; exact hne iv hl, ?_, fun aes ct => hdec a aes ct hiv hca⟩
          intro aes plain
          obtain ⟨padded, hp⟩ := PKCS7_Pad_ok (aesBlockSize : Int) (by decide) plain
          have hp2 : a.padder.Pad plain = .ok padded := by
            rw [hpad]
            exact hp
          simp [AESCBCV2.Encrypt, hca, hp2, hiv, aesBlockSize]
        · simp only [NewAESCBCV2PKCS7ConstantIV, hk, hc, hl, ne_eq, not_false_eq_true,
            if_true] at h
          cases h

/-- C11 at a 16-byte key and an IV of 16 bytes of value 1: the constructor succeeds, the
returned value holds no IV, and encrypting three bytes with it panics. -/
theorem NewAESCBCConstantIV_iv_witness :
    ∃ a, NewAESCBCV2PKCS7ConstantIV sampleGetKey sampleKey sampleIV = .ok a ∧
      sampleIV.length = aesBlockSize ∧ a.iv = [] ∧ a.iv ≠ sampleIV ∧
      a.Encrypt identityCipher [1, 2, 3] = .error (.panic .ivLengthMismatch) :=
  ⟨{ key := utf8Encode sampleKey, padder := (NewPKCS7 aesBlockSize).toPadder, iv := [] }, rfl,
    have h := (NewAESCBCConstantIV_iv sampleGetKey sampleKey sampleIV).2
      { key := utf8Encode sampleKey, padder := (NewPKCS7 aesBlockSize).toPadder, iv := [] } rfl
    ⟨h.1, h.2.1, h.2.2.1, h.2.2.2.1 identityCipher [1, 2, 3]⟩⟩

/-! ## Request logging -/

theorem store_same (h : Header) (key : Str) (o : Option (List Str)) :
    (h.store key o) key = o := by
  simp [Header.store]

theorem store_other (h : Header) (key c : Str) (o : Option (List Str)) (hc : c ≠ key) :
    (h.store key o) c = h c := by
  simp [Header.store, hc]

theorem store_store (h : Header) (key : Str) (o1 o2 : Option (List Str)) :
    (h.store key o1).store key o2 = h.store key o2 := by
  funext c
  by_cases hc : c = key <;> simp [Header.store, hc]

theorem foldl_Add (canonical : Str → Str) (h : Header) (key : Str) (value : List Str) :
    ∀ o : Option (List Str),
      value.foldl (fun h1 v => Header.Add canonical h1 key v) (h.store (canonical key) o)
        = if value = [] then h.store (canonical key) o
          else h.store (canonical key) (some (o.getD [] ++ value)) := by
  induction value with
  | nil => intro o; simp
  | cons v vs ih =>
    intro o
    have step : Header.Add canonical (h.store (canonical key) o) key v
        = h.store (canonical key) (some (o.getD [] ++ [v])) := by
      simp only [Header.Add, store_same, store_store]
    rw [List.foldl_cons, step, ih]
    by_cases hvs : vs = []
    · simp [hvs]
    · simp [hvs]

/-- Putting the values of one key back: the map then holds them under the canonical key. -/
theorem restore_one (canonical : Str → Str) (h : Header) (key : Str) (value : List Str)
    (hv : value ≠ []) :
    value.foldl (fun h1 v => Header.Add canonical h1 key v) (Header.Del canonical h key)
      = h.store (canonical key) (some value) := by
  have := foldl_Add canonical h key value none
  simp only [Header.Del]
  rw [this, if_neg hv]
  simp

theorem redactHeaders_inv (canonical : Str → Str) (h0 : Header) (keys : List Str) :
    ∀ (done : List Str) (h : Header) (popList : PopList),
      ((done ++ keys).map canonical).Nodup →
      (∀ k v, popList k = some v → h0 (canonical k) = some v ∧ v ≠ []) →
      (∀ c, h c = h0 c ∨ ∃ k, (popList k).isSome = true ∧ canonical k = c) →
      (∀ c, c ∉ done.map canonical → h c = h0 c) →
      (∀ k v, (redactHeaders canonical keys (h, popList)).2 k = some v →
        h0 (canonical k) = some v ∧ v ≠ []) ∧
      (∀ c, (redactHeaders canonical keys (h, popList)).1 c = h0 c ∨
        ∃ k, ((redactHeaders canonical keys (h, popList)).2 k).isSome = true ∧
          canonical k = c) := by
  induction keys with
  | nil => intro done h popList _ i1 i2 _; exact ⟨i1, i2⟩
  | cons key rest ih =>
    intro done h popList hnd i1 i2 i3
    have hnd2 : (((done ++ [key]) ++ rest).map canonical).Nodup := by
      simpa [List.append_assoc] using hnd
    have hfresh : canonical key ∉ done.map canonical := by
      simp only [List.map_append, List.map_cons] at hnd
      have := (List.nodup_append.mp hnd).2.2
      intro hmem
      exact this hmem (List.mem_cons_self _ _)
    have hval : Header.Values canonical h key = (h0 (canonical key)).getD [] := by
      simp only [Header.Values, i3 _ hfresh]
    by_cases hlen : (Header.Values canonical h key).length ≠ 0
    · have hne : Header.Values canonical h key ≠ [] := by
        intro hnil
        rw [hnil] at hlen
        simp at hlen
      have hsome : h0 (canonical key) = some (Header.Values canonical h key) := by
        rw [hval] at hne ⊢
        cases hh : h0 (canonical key) with
        | none => rw [hh] at hne; simp at hne
        | some v => rfl
      have hstep : redactHeaders canonical (key :: rest) (h, popList)
          = redactHeaders canonical rest
              (Header.Set canonical h key redacted,
               fun k => if k = key then some (Header.Values canonical h key) else popList k) := by
        simp only [redactHeaders]
        rw [if_pos hlen]
      rw [hstep]
      apply ih (done ++ [key]) _ _ hnd2
      · intro k v hk
        by_cases hkk : k = key
        · simp only [hkk, if_true, Option.some.injEq] at hk
          subst hk
          rw [hkk]
          exact ⟨hsome, hne⟩
        · simp only [hkk, if_false] at hk
          exact i1 k v hk
      · intro c
        by_cases hc : c = canonical key
        · right
          exact ⟨key, by simp, hc.symm⟩
        · rcases i2 c with hl | ⟨k, hk, hkc⟩
          · left
            simp only [Header.Set]
            rw [store_other _ _ _ _ hc, hl]
          · right
            refine ⟨k, ?_, hkc⟩
            by_cases hkk : k = key
            · simp [hkk]
            · simp [hkk, hk]
      · intro c hc
        have hc1 : c ≠ canonical key := by
          intro heq
          apply hc
          simp [heq]
        have hc2 : c ∉ done.map canonical := by
          intro hmem
          apply hc
          simp only [List.map_append, List.mem_append]
          exact Or.inl hmem
        simp only [Header.Set]
        rw [store_other _ _ _ _ hc1, i3 c hc2]
    · have hstep : redactHeaders canonical (key :: rest) (h, popList)
          = redactHeaders canonical rest (h, popList) := by
        simp only [redactHeaders]
        rw [if_neg hlen]
      rw [hstep]
      apply ih (done ++ [key]) _ _ hnd2 i1 i2
      intro c hc
      have hc2 : c ∉ done.map canonical := by
        intro hmem
        apply hc
        simp only [List.map_append, List.mem_append]
        exact Or.inl hmem
      exact i3 c hc2

theorem restoreHeaders_inv (canonical : Str → Str) (h0 : Header) (popList : PopList)
    (i1 : ∀ k v, popList k = some v → h0 (canonical k) = some v ∧ v ≠ []) :
    ∀ (order : List Str) (h : Header),
      (∀ c, h c = h0 c ∨ ∃ k, k ∈ order ∧ (popList k).isSome = true ∧ canonical k = c) →
      restoreHeaders canonical popList order h = h0 := by
  intro order
  induction order with
  | nil =>
    intro h hyp
    funext c
    rcases hyp c with hl | ⟨k, hk, _⟩
    · simpa [restoreHeaders] using hl
    · simp at hk
  | cons key rest ih =>
    intro h hyp
    cases hp : popList key with
    | none =>
      simp only [restoreHeaders, hp]
      apply ih
      intro c
      rcases hyp c with hl | ⟨k, hk, hks, hkc⟩
      · exact Or.inl hl
      · right
        rcases List.mem_cons.mp hk with hkk | hkr
        · rw [hkk, hp] at hks
          simp at hks
        · exact ⟨k, hkr, hks, hkc⟩
    | some value =>
      obtain ⟨h0v, hvne⟩ := i1 key value hp
      simp only [restoreHeaders, hp]
      rw [restore_one canonical h key value hvne]
      apply ih
      intro c
      by_cases hc : c = canonical key
      · left
        rw [hc, store_same, h0v]
      · rw [store_other _ _ _ _ hc]
        rcases hyp c with hl | ⟨k, hk, hks, hkc⟩
        · exact Or.inl hl
        · right
          rcases List.mem_cons.mp hk with hkk | hkr
          · exfalso
            apply hc
            rw [← hkc, hkk]
          · exact ⟨k, hkr, hks, hkc⟩

/-- When no two entries of the key list name the same header (after canonicalisation),
`PrintRequest` leaves the request as it found it, in whatever order the keys that were
put aside are visited, and what it logged has every listed header that was present
replaced. -/
theorem PrintRequest_restores (canonical : Str → Str) (authHeaderKeyList rangeOrder : List Str)
    (r : Request) (hnodup : (authHeaderKeyList.map canonical).Nodup)
    (hrange : ∀ k, ((redactHeaders canonical authHeaderKeyList
        (r.Header, fun _ => none)).2 k).isSome = true → k ∈ rangeOrder) :
    (PrintRequest canonical authHeaderKeyList rangeOrder r).request = r := by
  obtain ⟨i1, i2⟩ := redactHeaders_inv canonical r.Header authHeaderKeyList [] r.Header
    (fun _ => none) (by simpa using hnodup) (by intro k v hk; cases hk)
    (fun c => Or.inl rfl) (fun c _ => rfl)
  have hrest := restoreHeaders_inv canonical r.Header _ i1 rangeOrder
    (redactHeaders canonical authHeaderKeyList (r.Header, fun _ => none)).1
    (by
      intro c
      rcases i2 c with hl | ⟨k, hk, hkc⟩
      · exact Or.inl hl
      · exact Or.inr ⟨k, hrange k hk, hk, hkc⟩)
  simp only [PrintRequest, hrest]

/-- C13 fails on a key list that names a header twice: with the list `Authorization`,
`Authorization` and a request that carries `Authorization: Bearer abc`, the second pass
over the key puts the replacement text aside, and after `PrintRequest` the request's
header holds `---redacted---` instead of its original value. With the list
`Authorization`, `authorization` the outcome depends on the order in which the keys put
aside are visited: one order loses the original value, the other restores it. -/
theorem PrintRequest_duplicate_key :
    sampleRequest.Header "Authorization".data = some ["Bearer abc".data] ∧
    (PrintRequest CanonicalMIMEHeaderKey ["Authorization".data, "Authorization".data]
        ["Authorization".data] sampleRequest).request.Header "Authorization".data
      = some ["---redacted---".data] ∧
    (PrintRequest CanonicalMIMEHeaderKey ["Authorization".data, "authorization".data]
        ["Authorization".data, "authorization".data] sampleRequest).request.Header
        "Authorization".data
      = some ["---redacted---".data] ∧
    (PrintRequest CanonicalMIMEHeaderKey ["Authorization".data, "authorization".data]
        ["authorization".data, "Authorization".data] sampleRequest).request.Header
        "Authorization".data
      = some ["Bearer abc".data] := by
  refine ⟨?_, ?_, ?_, ?_⟩ <;> decide

/-- With a key list without repetition the same request comes back unchanged. -/
theorem PrintRequest_restores_sample :
    (PrintRequest CanonicalMIMEHeaderKey ["authorization".data, "X-Api-Key".data]
        ["authorization".data] sampleRequest).request = sampleRequest :=
  PrintRequest_restores CanonicalMIMEHeaderKey ["authorization".data, "X-Api-Key".data]
    ["authorization".data] sampleRequest (by decide)
    (by
      intro k hk
      by_cases h1 : k = "authorization".data
      · simp [h1]
      · exfalso
        revert hk
        simp only [redactHeaders, Header.Values, Header.Set, Header.store, sampleRequest]
        simp +decide [h1])

end Goserverbase
